import Mathlib

/-!
Verification of the analysta tabular-comparison toolkit.

Shallow embedding of the `analysta` Python package (files `delta.py`,
`diff.py`, `check.py`) over a column-oriented table model:

* a pandas `DataFrame` is a `Table`: an ordered schema of named columns,
  each tagged with its pandas dtype class (numeric or object), together
  with a list of rows;
* a cell is a `Val`: the pandas missing marker `NaN`/`NaT` (`Val.null`),
  a number (`Val.num`, rationals standing for Python/numpy numerics), or
  a string (`Val.str`);
* `Delta._build_diff_frames` (an outer merge with `_a`/`_b` suffixes,
  an indicator column, and a tolerance-banded mismatch mask) is
  `mergedRows` / `buildFrames`;
* `check.py`'s expectation parser and evaluator are embedded below them.
-/

namespace Analysta

/-- A single cell of a DataFrame.  `null` is the pandas missing marker
(`NaN`), which in pandas compares unequal to everything, itself included. -/
inductive Val where
  | null : Val
  | num : ℚ → Val
  | str : String → Val
deriving DecidableEq, Repr

/-- A column header: its name and whether its pandas dtype is numeric
(`pd.api.types.is_numeric_dtype`); non-numeric columns are object/string
columns. -/
structure ColInfo where
  name : String
  isNum : Bool
deriving DecidableEq, Repr

/-- A DataFrame: an ordered schema and a list of rows (each row lists the
cells in schema order). -/
structure Table where
  schema : List ColInfo
  rows : List (List Val)
deriving DecidableEq, Repr

/-- Column-name lookup of a cell inside one row (`row[name]`). Missing
names give the missing marker. -/
def getVal : List ColInfo → List Val → String → Val
  | c :: s, v :: r, n => if c.name = n then v else getVal s r n
  | _, _, _ => .null

/-- The list of column names of a schema (`df.columns`). -/
def colNames (s : List ColInfo) : List String := s.map ColInfo.name

/-- The numeric-dtype flag of a named column. -/
def getFlag : List ColInfo → String → Bool
  | c :: s, n => if c.name = n then c.isNum else getFlag s n
  | _, _ => false

/-! ### diff.py: trim_whitespace -/

/-- Python `str.strip()`: drop leading and trailing whitespace. -/
def pyStrip (s : String) : String :=
  ⟨((s.data.dropWhile Char.isWhitespace).reverse.dropWhile Char.isWhitespace).reverse⟩

/-- Does `pat` match at the head of the character list? -/
def subAt : List Char → List Char → Bool
  | [], _ => true
  | _ :: _, [] => false
  | p :: ps, c :: cs => p == c && subAt ps cs

/-- Python `s.endswith(suffix)`. -/
def strEndsWith (s suf : String) : Bool := subAt suf.data.reverse s.data.reverse

/-- The lambda inside `trim_whitespace`: strip a cell when it is a string,
leave every other value untouched. -/
def trimVal : Val → Val
  | .str s => .str (pyStrip s)
  | v => v

/-- One row of `trim_whitespace`: the strip lambda is applied down each
object/string-dtype column; numeric-dtype columns are skipped. -/
def trimRow : List ColInfo → List Val → List Val
  | c :: s, v :: r => (if c.isNum then v else trimVal v) :: trimRow s r
  | _, r => r

/-- `diff.trim_whitespace`: a copy of the frame with leading/trailing
whitespace stripped from the strings of every object/string column. -/
def trim_whitespace (t : Table) : Table :=
  ⟨t.schema, t.rows.map (trimRow t.schema)⟩

/-! ### delta.py: the merge and the mismatch mask -/

/-- Numeric cell comparison from `_build_diff_frames`:
`(both[col_a] - both[col_b]).abs() <= abs_tol + rel_tol * both[col_b].abs()`.
A missing value (`NaN`) on either side makes the pandas comparison
`False`. -/
def numEqual (abs_tol rel_tol : ℚ) : Val → Val → Bool
  | .num a, .num b => decide (|a - b| ≤ abs_tol + rel_tol * |b|)
  | _, _ => false

/-- Object-column cell comparison from `_build_diff_frames`:
`both[col_a] != both[col_b]`, where the `NaN` missing marker compares
unequal to everything, another `NaN` included. -/
def objNe : Val → Val → Bool
  | .null, _ => true
  | _, .null => true
  | .num a, .num b => decide (a ≠ b)
  | .str a, .str b => decide (a ≠ b)
  | _, _ => true

/-- The values of the key columns of one row, in key order
(the join key `row[keys]`). -/
def keyVals (schema : List ColInfo) (keys : List String) (r : List Val) : List Val :=
  keys.map (getVal schema r)

/-- The merge suffix rule of `pd.merge(..., suffixes=("_a", "_b"))`: a
column shared by both frames and not a join key gets the side suffix. -/
def suffixCol (keys other : List String) (suf : String) (c : ColInfo) : ColInfo :=
  if c.name ∉ keys ∧ c.name ∈ other then { c with name := c.name ++ suf } else c

/-- Schema of the outer merge (without the `_merge` indicator): the left
frame's columns (suffixed `_a` where shared), then the right frame's
non-key columns (suffixed `_b` where shared). -/
def mergedSchema (a b : Table) (keys : List String) : List ColInfo :=
  a.schema.map (suffixCol keys (colNames b.schema) "_a")
    ++ (b.schema.filter (fun c => decide (c.name ∉ keys))).map
        (suffixCol keys (colNames a.schema) "_b")

/-- The cells of a row that sit in non-key columns, in schema order. -/
def dropKeyCols (keys : List String) : List ColInfo → List Val → List Val
  | c :: s, v :: r =>
      if c.name ∈ keys then dropKeyCols keys s r else v :: dropKeyCols keys s r
  | _, _ => []

/-- A merged row for a key matched on both sides: the full left row, then
the right row's non-key cells. -/
def bothRow (keys : List String) (bSchema : List ColInfo) (ra rb : List Val) : List Val :=
  ra ++ dropKeyCols keys bSchema rb

/-- A merged row for a key present only on the left: the left row, the
right-side non-key columns filled with the missing marker. -/
def leftOnlyRow (keys : List String) (bSchema : List ColInfo) (ra : List Val) : List Val :=
  ra ++ (bSchema.filter (fun c => decide (c.name ∉ keys))).map (fun _ => Val.null)

/-- A merged row for a key present only on the right: key columns carry
the right row's key values, the remaining left-side columns the missing
marker, then the right row's non-key cells. -/
def rightOnlyRow (aSchema bSchema : List ColInfo) (keys : List String) (rb : List Val) :
    List Val :=
  aSchema.map (fun c => if c.name ∈ keys then getVal bSchema rb c.name else Val.null)
    ++ dropKeyCols keys bSchema rb

/-- The `_merge` indicator column of `pd.merge(..., indicator=True)`. -/
inductive MergeTag where
  | left_only : MergeTag
  | right_only : MergeTag
  | both : MergeTag
deriving DecidableEq, Repr

/-- Rows of the outer merge of `_build_diff_frames`, each with its
indicator value: every left row paired with each right row of equal key
(or null-extended when none exists), then the unmatched right rows. -/
def mergedRows (a b : Table) (keys : List String) : List (List Val × MergeTag) :=
  (a.rows.flatMap fun ra =>
    let ms := b.rows.filter fun rb =>
      decide (keyVals b.schema keys rb = keyVals a.schema keys ra)
    if ms.isEmpty then [(leftOnlyRow keys b.schema ra, MergeTag.left_only)]
    else ms.map fun rb => (bothRow keys b.schema ra rb, MergeTag.both))
  ++ ((b.rows.filter fun rb =>
        !(a.rows.any fun ra =>
          decide (keyVals a.schema keys ra = keyVals b.schema keys rb))).map
      fun rb => (rightOnlyRow a.schema b.schema keys rb, MergeTag.right_only))

/-- `c[:-2]` on a column name: the base name of a suffixed column. -/
def dropLast2 (s : String) : String := ⟨s.data.dropLast.dropLast⟩

/-- One compared column's contribution to the mismatch mask: the loop body
of `_build_diff_frames` for a column ending in `_a`, with its `_b`
partner; numeric columns use the tolerance band, object columns `!=`.
(When the `_b` partner is absent the source raises `KeyError`; that case
cannot arise from inputs whose column names carry no side suffix.) -/
def colDiff (abs_tol rel_tol : ℚ) (schema : List ColInfo) (r : List Val) (c : ColInfo) :
    Bool :=
  if strEndsWith c.name "_a" then
    let colb := dropLast2 c.name ++ "_b"
    if colb ∈ colNames schema then
      if c.isNum then
        !(numEqual abs_tol rel_tol (getVal schema r c.name) (getVal schema r colb))
      else
        objNe (getVal schema r c.name) (getVal schema r colb)
    else false
  else false

/-- The row-level mismatch flag `diff_mask`: the OR over every compared
column of that column's inequality. -/
def rowDiff (abs_tol rel_tol : ℚ) (schema : List ColInfo) (r : List Val) : Bool :=
  schema.any (colDiff abs_tol rel_tol schema r)

/-- The three result frames of a Delta. -/
structure DeltaFrames where
  unmatched_a : Table
  unmatched_b : Table
  mismatches : Table
deriving DecidableEq, Repr

/-- `Delta._build_diff_frames`: outer merge with indicator, split by the
indicator, and the mismatch mask over the rows present in both. -/
def buildFrames (a b : Table) (keys : List String) (abs_tol rel_tol : ℚ) : DeltaFrames :=
  let schema := mergedSchema a b keys
  let merged := mergedRows a b keys
  { unmatched_a :=
      ⟨schema, (merged.filter (fun p => p.2 == MergeTag.left_only)).map Prod.fst⟩
    unmatched_b :=
      ⟨schema, (merged.filter (fun p => p.2 == MergeTag.right_only)).map Prod.fst⟩
    mismatches :=
      ⟨schema, ((merged.filter (fun p => p.2 == MergeTag.both)).map Prod.fst).filter
        (rowDiff abs_tol rel_tol schema)⟩ }

/-- The `Delta` class: constructor arguments plus the three result frames
filled eagerly by `_build_diff_frames`. -/
structure Delta where
  df_a : Table
  df_b : Table
  keys : List String
  abs_tol : ℚ
  rel_tol : ℚ
  unmatched_a : Table
  unmatched_b : Table
  mismatches : Table
deriving DecidableEq, Repr

/-- `Delta.__init__`: trim both inputs, store the parameters, and build
the diff frames. -/
def Delta.make (df_a df_b : Table) (keys : List String) (abs_tol rel_tol : ℚ) : Delta :=
  let a := trim_whitespace df_a
  let b := trim_whitespace df_b
  let f := buildFrames a b keys abs_tol rel_tol
  ⟨a, b, keys, abs_tol, rel_tol, f.unmatched_a, f.unmatched_b, f.mismatches⟩

/-- Column projection `t[names]`: `none` models the pandas `KeyError`
raised when a requested column is absent. -/
def selectCols (t : Table) (names : List String) : Option Table :=
  if names.all (fun n => decide (n ∈ colNames t.schema)) then
    some ⟨names.map (fun n => ⟨n, getFlag t.schema n⟩),
          t.rows.map (fun r => names.map (getVal t.schema r))⟩
  else none

/-- `Delta.changed`: project `mismatches` to the key columns plus the two
suffixed variants of `column`. -/
def Delta.changed (d : Delta) (column : String) : Option Table :=
  selectCols d.mismatches (d.keys ++ [column ++ "_a", column ++ "_b"])

/-! ### check.py: data classes -/

/-- `check.ColumnExpectation`. -/
structure ColumnExpectation where
  name : String
  unique : Bool := false
  dtype : Option String := none
  fmt : Option String := none
  allowed_values : Option (List String) := none
  regex : Option String := none
  allow_nulls : Option Bool := none
deriving DecidableEq, Repr

/-- `check.ColumnResult`. -/
structure ColumnResult where
  column : String
  passed : Bool
  diagnostics : List String := []
deriving DecidableEq, Repr

/-- `check.RowRule`. -/
structure RowRule where
  description : String
  expression : String
deriving DecidableEq, Repr

/-- `check.RowRuleResult`. -/
structure RowRuleResult where
  description : String
  passed : Bool
  failing_indices : List Nat := []
  message : Option String := none
deriving DecidableEq, Repr

/-- `check.ExpectationReport`. -/
structure ExpectationReport where
  passed : Bool
  column_results : List ColumnResult := []
  row_results : List RowRuleResult := []
  custom_results : List RowRuleResult := []
deriving DecidableEq, Repr

/-! ### String helpers shared by the parser embedding -/

/-- A single-quote character as a string (used by the Python diagnostic
messages, which quote string samples and rule expressions). -/
def sq : String := ⟨['\'']⟩

/-- Python `\w`. -/
def isWordChar (c : Char) : Bool := c.isAlphanum || c == '_'

/-- The character class `[\w .-]` of the column-rule pattern. -/
def isNameChar (c : Char) : Bool := isWordChar c || c == ' ' || c == '.' || c == '-'

/-- Does `pat` occur anywhere in the character list? -/
def containsSub (pat : List Char) : List Char → Bool
  | [] => pat.isEmpty
  | c :: cs => subAt pat (c :: cs) || containsSub pat cs

/-- Python `pat in hay` on strings. -/
def strContains (hay pat : String) : Bool := containsSub pat.data hay.data

/-- Python `s.startswith(pre)`. -/
def strStartsWith (s pre : String) : Bool := subAt pre.data s.data

/-- Python `s.lower()`. -/
def strLower (s : String) : String := ⟨s.data.map Char.toLower⟩

/-- Python `s.split(sep)` for a one-character separator. -/
def splitOnChar (sep : Char) : List Char → List (List Char)
  | [] => [[]]
  | c :: cs =>
      if c == sep then [] :: splitOnChar sep cs
      else
        match splitOnChar sep cs with
        | t :: ts => (c :: t) :: ts
        | [] => [[c]]

/-- Python `s.split("or")` (non-overlapping, left to right). -/
def splitOnOr : List Char → List (List Char)
  | [] => [[]]
  | c :: rest =>
      match rest with
      | n :: r2 =>
          if c == 'o' && n == 'r' then [] :: splitOnOr r2
          else
            match splitOnOr (n :: r2) with
            | t :: ts => (c :: t) :: ts
            | [] => [[c]]
      | [] => [[c]]

/-- Python `hay.replace(pat, "", 1)`: delete the first occurrence. -/
def replaceOnceAux (pat : List Char) : List Char → List Char
  | [] => []
  | c :: cs =>
      if subAt pat (c :: cs) then (c :: cs).drop pat.length
      else c :: replaceOnceAux pat cs

/-- Python `hay.replace(pat, "", 1)` on strings. -/
def replaceOnce (hay pat : String) : String := ⟨replaceOnceAux pat.data hay.data⟩

/-- Python `s.split(sep, 1)` as a pair (split at the first occurrence of a
single character; the source only calls it when the character is known to
occur). -/
def splitOnceCharAux (c : Char) : List Char → List Char × List Char
  | [] => ([], [])
  | x :: xs =>
      if x == c then ([], xs)
      else
        let (a, b) := splitOnceCharAux c xs
        (x :: a, b)

/-- Python `s.split(sep, 1)` for a one-character separator. -/
def splitOnceChar (s : String) (c : Char) : String × String :=
  let (a, b) := splitOnceCharAux c s.data
  (⟨a⟩, ⟨b⟩)

/-- Python `s.split(pat, 1)` for a multi-character separator.  When `pat`
does not occur the remainder is empty (the source indexes `[1]` only
after a containment check on the lowered text, so an absent occurrence —
possible only through a case mismatch — would raise there). -/
def splitOnceSubAux (pat : List Char) : List Char → List Char × List Char
  | [] => ([], [])
  | c :: cs =>
      if subAt pat (c :: cs) then ([], (c :: cs).drop pat.length)
      else
        let (a, b) := splitOnceSubAux pat cs
        (c :: a, b)

/-- Python `s.split(pat, 1)[1]`-style split on strings. -/
def splitOnceSub (s pat : String) : String × String :=
  let (a, b) := splitOnceSubAux pat.data s.data
  (⟨a⟩, ⟨b⟩)

/-- Python `s.strip(chars)`: drop leading and trailing characters drawn
from the given set. -/
def stripChars (set : List Char) (s : String) : String :=
  ⟨((s.data.dropWhile (set.contains ·)).reverse.dropWhile (set.contains ·)).reverse⟩

/-- Case-insensitive literal match (the parser's patterns carry
`re.IGNORECASE`); returns the remaining input. -/
def matchLitCI : List Char → List Char → Option (List Char)
  | [], cs => some cs
  | _ :: _, [] => none
  | l :: ls, c :: cs => if l.toLower == c.toLower then matchLitCI ls cs else none

/-- `\s+`, maximal munch. -/
def matchSpaces1 : List Char → Option (List Char)
  | c :: cs => if c.isWhitespace then some (cs.dropWhile Char.isWhitespace) else none
  | [] => none

/-- Generic `re.search` driver: try the matcher at each start position,
left to right. -/
def searchPos {α : Type} (f : List Char → Option α) : List Char → Option α
  | [] => f []
  | c :: cs => f (c :: cs) <|> searchPos f cs

/-! ### check.py: the column-rule pattern
`(?:expect\s+)?column\s+(?P<name>[\w .-]+?)(?:\s*(?:to|:)?\s+)(?P<body>.+)` -/

/-- The separator `\s*(?:to|:)?\s+` after `to`/`:`/nothing has been
chosen; backtracking order: `to` first, then `:`, then neither. -/
def trySepTail (rem : List Char) : Option (List Char) :=
  (do let r ← matchLitCI ['t', 'o'] rem; matchSpaces1 r)
  <|> (do let r ← matchLitCI [':'] rem; matchSpaces1 r)
  <|> matchSpaces1 rem

/-- The separator `\s*(?:to|:)?\s+`: the leading `\s*` is greedy, giving
back spaces one at a time on failure. -/
def matchSep (cs : List Char) : Option (List Char) :=
  let n := (cs.takeWhile Char.isWhitespace).length
  ((List.range (n + 1)).map (fun j => cs.drop (n - j))).firstM trySepTail

/-- The lazy name group `[\w .-]+?` followed by the separator and the
non-empty body `.+`: shortest name first. -/
def matchNameBody (cs : List Char) : Option (String × String) :=
  let maxName := (cs.takeWhile isNameChar).length
  (List.range maxName).firstM fun k =>
    let name := cs.take (k + 1)
    let rest := cs.drop (k + 1)
    do
      let body ← matchSep rest
      if body.isEmpty then failure else pure (⟨name⟩, ⟨body⟩)

/-- The whole column pattern anchored at one position: the optional
greedy `(?:expect\s+)?`, then `column\s+`, then name/separator/body. -/
def matchColumnAt (cs : List Char) : Option (String × String) :=
  (do
    let r1 ← matchLitCI "expect".data cs
    let r2 ← matchSpaces1 r1
    let r3 ← matchLitCI "column".data r2
    let r4 ← matchSpaces1 r3
    matchNameBody r4)
  <|> (do
    let r3 ← matchLitCI "column".data cs
    let r4 ← matchSpaces1 r3
    matchNameBody r4)

/-- `re.search` of the column pattern over a line. -/
def searchColumn (line : String) : Option (String × String) :=
  searchPos matchColumnAt line.data

/-! ### check.py: token splitting `re.split(r"[,;]|\band\b", body, flags=I)` -/

/-- `\b` to the left of `and`: the previous character (if any) must not be
a word character. -/
def boundaryOk : Option Char → Bool
  | none => true
  | some p => !isWordChar p

/-- Does the word `and` (case-insensitive, right boundary included) start
here? -/
def andHere (c : Char) (rest : List Char) : Bool :=
  c.toLower == 'a' &&
    (match rest with
     | n :: d :: r2 =>
         n.toLower == 'n' && d.toLower == 'd' &&
           (match r2 with
            | [] => true
            | x :: _ => !isWordChar x)
     | _ => false)

/-- The splitter on `[,;]` and word-bounded `and`. -/
def splitTokensAux : Option Char → List Char → List Char → List String
  | _, acc, [] => [⟨acc.reverse⟩]
  | prev, acc, c :: rest =>
      if c == ',' || c == ';' then
        (⟨acc.reverse⟩ : String) :: splitTokensAux (some c) [] rest
      else
        match rest with
        | n :: d :: r2 =>
            if boundaryOk prev && andHere c (n :: d :: r2) then
              (⟨acc.reverse⟩ : String) :: splitTokensAux (some 'd') [] r2
            else splitTokensAux (some c) (c :: acc) (n :: d :: r2)
        | short => splitTokensAux (some c) (c :: acc) short

/-- `re.split(r"[,;]|\band\b", body, flags=re.IGNORECASE)`. -/
def splitTokens (s : String) : List String := splitTokensAux none [] s.data

/-! ### check.py: phrase extractors -/

/-- `_extract_dtype` (its argument is already lowered by the caller). -/
def extractDtype (token : String) : Option String :=
  if strContains token "integer" || strContains token "int" then some "integer"
  else if strContains token "float" || strContains token "double" ||
      strContains token "numeric" then some "float"
  else if strContains token "string" || strContains token "text" then some "string"
  else if strContains token "datetime" || strContains token "date" then some "datetime"
  else none

/-- `re.search(kw ++ "\s+(.+)")` with the capture stripped, as used by
`_extract_format` and `_extract_regex`. -/
def kwRestAt (kw : List Char) (cs : List Char) : Option String := do
  let r ← matchLitCI kw cs
  let r2 ← matchSpaces1 r
  if r2.isEmpty then failure else pure (pyStrip ⟨r2⟩)

/-- `_extract_format`: `re.search(r"format\s+(.+)", token, I)`. -/
def extractFormat (token : String) : Option String :=
  searchPos (kwRestAt "format".data) token.data

/-- `_extract_regex`: `regex\s+(.+)` first, then `match(?:es)?\s+(.+)`
(the greedy optional `es` tried first). -/
def extractRegex (token : String) : Option String :=
  searchPos (kwRestAt "regex".data) token.data
  <|> searchPos (fun cs => kwRestAt "matches".data cs <|> kwRestAt "match".data cs) token.data

/-- The tail `[^\w]*(.+)` of the allowed-values pattern: greedy non-word
run, giving back its last character when nothing is left for `(.+)`. -/
def allowedTail (r : List Char) : Option String :=
  let nw := r.dropWhile (fun c => !isWordChar c)
  if nw.isEmpty then
    match r.getLast? with
    | none => none
    | some c => some ⟨[c]⟩
  else some ⟨nw⟩

/-- `allowed values?[^\w]*(.+)` at one position (greedy optional `s`). -/
def allowedAt (cs : List Char) : Option String := do
  let r1 ← matchLitCI "allowed value".data cs
  match r1 with
  | c :: rest =>
      if c.toLower == 's' then allowedTail rest <|> allowedTail r1
      else allowedTail r1
  | [] => allowedTail r1

/-- The tail `\s+in\s+(.+)` of the `values in` pattern. -/
def valuesInTail (r : List Char) : Option String := do
  let r3 ← matchSpaces1 r
  let r4 ← matchLitCI "in".data r3
  let r5 ← matchSpaces1 r4
  if r5.isEmpty then failure else pure ⟨r5⟩

/-- `values?\s+in\s+(.+)` at one position (greedy optional `s`). -/
def valuesInAt (cs : List Char) : Option String := do
  let r1 ← matchLitCI "value".data cs
  match r1 with
  | c :: rest =>
      if c.toLower == 's' then valuesInTail rest <|> valuesInTail r1
      else valuesInTail r1
  | [] => valuesInTail r1

/-- The first segment of
`re.split(r";|\band\b", values_part, maxsplit=1, flags=I)`. -/
def headSemiAnd : Option Char → List Char → List Char
  | _, [] => []
  | prev, c :: rest =>
      if c == ';' then []
      else if boundaryOk prev && andHere c rest then []
      else c :: headSemiAnd (some c) rest

/-- `_extract_allowed_values`: either pattern, then the trimming, brace
stripping and `or`/comma splitting of the captured list.  Python collects
the values into a `set`; only membership is consumed downstream, so the
set is carried as the deduplicated insertion-ordered list. -/
def extractAllowedValues (token : String) : Option (List String) :=
  match searchPos allowedAt token.data <|> searchPos valuesInAt token.data with
  | none => none
  | some cap =>
      let vp0 := pyStrip cap
      let vp1 := pyStrip ⟨headSemiAnd none vp0.data⟩
      let vp2 := stripChars ['{', '}', '[', ']', '(', ')'] vp1
      let raws := (splitOnOr vp2.data).map (fun l => (⟨l⟩ : String))
      let values := (raws.filter (fun raw => !(raw == ""))).flatMap fun raw =>
        (((splitOnChar ',' raw.data).map (fun l => (⟨l⟩ : String))).filter
            (fun seg => !(pyStrip seg == ""))).map
          (fun seg => stripChars ['\'', '"'] (pyStrip seg))
      if values.isEmpty then none else some values.eraseDups

/-! ### check.py: rule parsing -/

/-- `_parse_row_rules`. -/
def parseRowRules (rules : List String) : List RowRule :=
  rules.foldr
    (fun rule acc =>
      if rule == "" then acc
      else
        let text := pyStrip rule
        let lowered := strLower text
        let expr :=
          if strContains lowered "satisfy" then pyStrip (splitOnceSub text "satisfy").2
          else if strContains lowered "must" then pyStrip (splitOnceSub text "must").2
          else text
        ⟨text, expr⟩ :: acc)
    []

/-- The per-token loop of `_parse_column_body`. -/
def columnBodyStep (e : ColumnExpectation) (raw : String) : ColumnExpectation :=
  let token := pyStrip raw
  let lowered := strLower token
  if token == "" then e
  else if strContains lowered "unique" then { e with unique := true }
  else if strContains lowered "not null" || strContains lowered "no null" ||
      strContains lowered "non-null" then { e with allow_nulls := some false }
  else if strContains lowered "allow null" then { e with allow_nulls := some true }
  else
    let e1 := match extractDtype lowered with
      | some d => { e with dtype := some d }
      | none => e
    let e2 := match extractFormat token with
      | some f => { e1 with fmt := some f }
      | none => e1
    let e3 :=
      if e2.allowed_values.isNone then
        match extractAllowedValues token with
        | some vs => { e2 with allowed_values := some vs }
        | none => e2
      else e2
    match extractRegex token with
    | some r => { e3 with regex := some r }
    | none => e3

/-- `_parse_column_body`: the full-body allowed-values pass, then the
token loop. -/
def parseColumnBody (name body : String) : ColumnExpectation :=
  let e0 : ColumnExpectation := { name := name }
  let e1 := match extractAllowedValues body with
    | some vs => { e0 with allowed_values := some vs }
    | none => e0
  (splitTokens body).foldl columnBodyStep e1

/-- `_parse_expectations` over the stripped non-empty lines. -/
def parseExpectationLines : List String → List ColumnExpectation × List RowRule
  | [] => ([], [])
  | line :: rest =>
      let (ce, rr) := parseExpectationLines rest
      let lowered := strLower line
      if strStartsWith lowered "rows must" || strStartsWith lowered "every row must" ||
          strStartsWith lowered "expect rows" then
        (ce, parseRowRules [line] ++ rr)
      else
        match searchColumn line with
        | some (name, body) => (parseColumnBody (pyStrip name) (pyStrip body) :: ce, rr)
        | none =>
            if strContains line ":" then
              let (n0, b0) := splitOnceChar line ':'
              let name := pyStrip (replaceOnce (pyStrip n0) "column")
              (parseColumnBody name (pyStrip b0) :: ce, rr)
            else (ce, rr)

/-- `_parse_expectations` (the list entry point; the single-string form
splits its lines into the same list). -/
def parseExpectations (lines : List String) : List ColumnExpectation × List RowRule :=
  parseExpectationLines ((lines.map pyStrip).filter (fun l => !(l == "")))

/-! ### check.py: numeric conversion (`pd.to_numeric(..., errors="coerce")`) -/

/-- Value of a digit run (empty runs give 0; validity is checked by the
caller). -/
def digitsToNat (cs : List Char) : Nat :=
  cs.foldl (fun a c => a * 10 + (c.toNat - 48)) 0

/-- A numeric literal: optional sign, decimal digits with an optional
point, optional exponent. -/
def parseNumeric (s0 : String) : Option ℚ :=
  let s := strLower (pyStrip s0)
  let (sign, body) : ℚ × String := match s.data with
    | '+' :: r => (1, ⟨r⟩)
    | '-' :: r => (-1, ⟨r⟩)
    | r => (1, ⟨r⟩)
  let withExp : String × Option ℤ :=
    match (splitOnChar 'e' body.data).map (fun l => (⟨l⟩ : String)) with
    | [m] => (m, some 0)
    | [m, ex] =>
        let (esign, edig) : ℤ × String := match ex.data with
          | '+' :: r => (1, ⟨r⟩)
          | '-' :: r => (-1, ⟨r⟩)
          | r => (1, ⟨r⟩)
        if edig.data ≠ [] && edig.data.all Char.isDigit then
          (m, some (esign * (digitsToNat edig.data : ℤ)))
        else (m, none)
    | _ => (body, none)
  match withExp with
  | (_, none) => none
  | (m, some e) =>
      match (splitOnChar '.' m.data).map (fun l => (⟨l⟩ : String)) with
      | [ip] =>
          if ip.data ≠ [] && ip.data.all Char.isDigit then
            some (sign * (digitsToNat ip.data : ℚ) * (10 : ℚ) ^ e)
          else none
      | [ip, fp] =>
          if (ip.data ≠ [] || fp.data ≠ []) && ip.data.all Char.isDigit &&
              fp.data.all Char.isDigit then
            some (sign * ((digitsToNat ip.data : ℚ) +
              (digitsToNat fp.data : ℚ) / (10 : ℚ) ^ fp.data.length) * (10 : ℚ) ^ e)
          else none
      | _ => none

/-- `pd.to_numeric(series, errors="coerce")` on one cell: numbers pass
through, numeric strings convert, everything else coerces to `NaN`. -/
def toNumeric : Val → Option ℚ
  | .num q => some q
  | .str s => parseNumeric s
  | .null => none

/-! ### check.py: formatting of the diagnostic messages -/

/-- `str(value)` for the cell values the claims exercise: integers render
without a decimal point (int64), strings as themselves, `NaN` as `nan`.
Non-integral numerics stand in for Python's float repr (which no claim
exercises) as `num/den`. -/
def pyStrVal : Val → String
  | .null => "nan"
  | .num q => if q.den = 1 then toString q.num else toString q.num ++ "/" ++ toString q.den
  | .str s => s

/-- `repr(value)` as rendered inside a Python f-string of a list:
strings are quoted, numbers are not. -/
def pyReprVal : Val → String
  | .str s => sq ++ s ++ sq
  | v => pyStrVal v

/-- `repr` of an element of an `astype(str)` series: always quoted. -/
def pyStrRepr (v : Val) : String := sq ++ pyStrVal v ++ sq

/-- Python's rendering of a list inside an f-string. -/
def fmtPyList (xs : List String) : String := "[" ++ String.intercalate ", " xs ++ "]"

/-- Python's rendering of a list of row positions. -/
def fmtNatList (xs : List Nat) : String := fmtPyList (xs.map toString)

/-! ### check.py: a small regular-expression engine

`_validate_column` compiles the rule's regex and uses `fullmatch`.  The
engine below covers literals, `.`, `\d`/`\w`/`\s`, character classes with
ranges, and the postfix quantifiers; no claim exercises patterns outside
this subset. -/

/-- One regex atom. -/
inductive RAtom where
  | lit : Char → RAtom
  | dot : RAtom
  | digit : RAtom
  | word : RAtom
  | space : RAtom
  | cls : Bool → List (Char × Char) → RAtom
deriving DecidableEq, Repr

/-- An atom with its quantifier. -/
inductive RPiece where
  | once : RAtom → RPiece
  | star : RAtom → RPiece
  | plus : RAtom → RPiece
  | opt : RAtom → RPiece
deriving DecidableEq, Repr

/-- Parse the items of a character class up to `]`. -/
def parseClsItems : List Char → Option (List (Char × Char) × List Char)
  | ']' :: rest => some ([], rest)
  | a :: '-' :: b :: rest =>
      if b == ']' then do
        let (items, r) ← parseClsItems (b :: rest)
        pure ((a, a) :: ('-', '-') :: items, r)
      else do
        let (items, r) ← parseClsItems rest
        pure ((a, b) :: items, r)
  | a :: rest => do
      let (items, r) ← parseClsItems rest
      pure ((a, a) :: items, r)
  | [] => none

/-- Parse one atom. -/
def parseAtom : List Char → Option (RAtom × List Char)
  | '.' :: rest => some (.dot, rest)
  | '\\' :: 'd' :: rest => some (.digit, rest)
  | '\\' :: 'w' :: rest => some (.word, rest)
  | '\\' :: 's' :: rest => some (.space, rest)
  | '\\' :: c :: rest => some (.lit c, rest)
  | '[' :: '^' :: rest => do
      let (items, r) ← parseClsItems rest
      pure (.cls true items, r)
  | '[' :: rest => do
      let (items, r) ← parseClsItems rest
      pure (.cls false items, r)
  | c :: rest =>
      if c == '*' || c == '+' || c == '?' || c == ')' || c == '|' then none
      else some (.lit c, rest)
  | [] => none

/-- A bounded repetition `{n}` after an atom unrolls to `n` copies. -/
def parseBound : List Char → Option (Nat × List Char)
  | '\x7b' :: rest =>
      let ds := rest.takeWhile Char.isDigit
      match rest.drop ds.length with
      | '\x7d' :: r2 => if ds.isEmpty then none else some (digitsToNat ds, r2)
      | _ => none
  | _ => none

/-- Parse a whole pattern into quantified pieces. -/
def parsePiecesAux : Nat → List Char → Option (List RPiece)
  | _, [] => some []
  | 0, _ => none
  | fuel + 1, cs => do
      let (a, rest) ← parseAtom cs
      match rest with
      | '*' :: r2 => do
          let ps ← parsePiecesAux fuel r2
          pure (.star a :: ps)
      | '+' :: r2 => do
          let ps ← parsePiecesAux fuel r2
          pure (.plus a :: ps)
      | '?' :: r2 => do
          let ps ← parsePiecesAux fuel r2
          pure (.opt a :: ps)
      | r2 =>
          match parseBound r2 with
          | some (n, r3) => do
              let ps ← parsePiecesAux fuel r3
              pure (List.replicate n (.once a) ++ ps)
          | none => do
              let ps ← parsePiecesAux fuel r2
              pure (.once a :: ps)

/-- Parse a pattern (anchors `^`/`$` are redundant under `fullmatch` and
dropped when outermost). -/
def parseRe (pat : String) : Option (List RPiece) :=
  let cs0 := pat.data
  let cs1 := match cs0 with
    | '^' :: r => r
    | r => r
  let cs2 := match cs1.getLast? with
    | some c => if c == '$' && (cs1.length < 2 || cs1.get? (cs1.length - 2) ≠ some '\\') then
        cs1.dropLast else cs1
    | none => cs1
  parsePiecesAux (cs2.length + 1) cs2

/-- Does an atom accept a character? -/
def matchAtom : RAtom → Char → Bool
  | .lit l, c => l == c
  | .dot, _ => true
  | .digit, c => c.isDigit
  | .word, c => isWordChar c
  | .space, c => c.isWhitespace
  | .cls neg items, c =>
      let hit := items.any (fun p => p.1 ≤ c && c ≤ p.2)
      if neg then !hit else hit

/-- Backtracking full match of a piece list against an input. -/
def matchPieces : List RPiece → List Char → Bool
  | [], [] => true
  | [], _ :: _ => false
  | .once _ :: _, [] => false
  | .once a :: ps, c :: s => matchAtom a c && matchPieces ps s
  | .opt a :: ps, s =>
      (match s with
       | c :: s2 => matchAtom a c && matchPieces ps s2
       | [] => false)
      || matchPieces ps s
  | .plus _ :: _, [] => false
  | .plus a :: ps, c :: s => matchAtom a c && matchPieces (.star a :: ps) s
  | .star a :: ps, s =>
      (match s with
       | c :: s2 => matchAtom a c && matchPieces (.star a :: ps) s2
       | [] => false)
      || matchPieces ps s
termination_by ps s => (s.length, ps.length)

/-- `re.fullmatch(pattern, value)` over the supported subset; patterns
outside it reject everything (no claim reaches them). -/
def regexFullMatch (pat s : String) : Bool :=
  match parseRe pat with
  | some ps => matchPieces ps s.data
  | none => false

/-! ### check.py: `_dtype_diagnostics` -/

/-- The integer check of `_dtype_diagnostics`: the value is invalid when
`pd.to_numeric` coerces it to `NaN` or its fractional part `converted % 1`
is not `np.isclose` to zero (`np.isclose(x, 0)` with the default
tolerances is `|x| <= atol = 1e-8`; the `rtol` term vanishes at zero). -/
def intCellInvalid (v : Val) : Bool :=
  match v with
  | .null => false
  | v =>
      match toNumeric v with
      | none => true
      | some q => !(decide (|Int.fract q| ≤ (1 : ℚ) / 100000000))

/-- The float check: invalid when the numeric conversion coerces to `NaN`. -/
def floatCellInvalid (v : Val) : Bool :=
  match v with
  | .null => false
  | v => (toNumeric v).isNone

/-- The string check: `isinstance(value, str)` on non-null cells. -/
def stringCellInvalid : Val → Bool
  | .null => false
  | .str _ => false
  | _ => true

/-- `pd.to_datetime(..., errors="coerce")` on one cell, minimally
modelled: dates in `%Y-%m-%d` form are the only shape the repository's
rules use; no claim exercises datetime expectations. -/
def validDate (s : String) : Bool :=
  match (splitOnChar '-' s.data).map (fun l => (⟨l⟩ : String)) with
  | [y, m, d] =>
      y.length == 4 && m.length == 2 && d.length == 2 &&
        (y.data.all Char.isDigit) && (m.data.all Char.isDigit) &&
        (d.data.all Char.isDigit) &&
        1 ≤ digitsToNat m.data && digitsToNat m.data ≤ 12 &&
        1 ≤ digitsToNat d.data && digitsToNat d.data ≤ 31
  | _ => false

/-- The datetime check: invalid when the parse coerces to `NaT`. -/
def datetimeCellInvalid : Val → Bool
  | .null => false
  | .str s => !validDate s
  | _ => true

/-- `_dtype_diagnostics`: the invalid mask for the declared category and
its diagnostic line (row positions, first five samples via
`astype(str)`, the format suffix for datetimes). -/
def dtypeDiagnostics (series : List Val) (dtype : String) (fmt : Option String) :
    List String :=
  let invalidCell : Option (Val → Bool) :=
    if dtype == "integer" then some intCellInvalid
    else if dtype == "float" then some floatCellInvalid
    else if dtype == "string" then some stringCellInvalid
    else if dtype == "datetime" then some datetimeCellInvalid
    else none
  match invalidCell with
  | none => []
  | some inv =>
      let invalid := series.enum.filter (fun p => inv p.2)
      if invalid.isEmpty then []
      else
        let details := "expected " ++ dtype ++ "; rows " ++
          fmtNatList (invalid.map Prod.fst) ++ "; samples: " ++
          fmtPyList (((invalid.map Prod.snd).take 5).map pyStrRepr)
        let details :=
          if dtype == "datetime" then
            match fmt with
            | some f => if f == "" then details else details ++ "; format=" ++ f
            | none => details
          else details
        [details]

/-! ### check.py: `_validate_column` -/

/-- `_validate_column`: the five constraint checks in source order, each
appending its diagnostic line. -/
def validateColumn (t : Table) (e : ColumnExpectation) : ColumnResult :=
  if !(decide (e.name ∈ colNames t.schema)) then
    ⟨e.name, false, ["column missing"]⟩
  else
    let series := t.rows.map (fun r => getVal t.schema r e.name)
    let d_null :=
      if e.allow_nulls == some false then
        let idxs := (series.enum.filter (fun p => p.2 == Val.null)).map Prod.fst
        if idxs.isEmpty then [] else ["nulls forbidden; rows " ++ fmtNatList idxs]
      else []
    let d_uniq :=
      if e.unique then
        let dups := series.enum.filter (fun p => series.count p.2 > 1)
        if dups.isEmpty then []
        else
          ["expected unique values; duplicate rows " ++ fmtNatList (dups.map Prod.fst) ++
            "; samples: " ++ fmtPyList (((dups.map Prod.snd).take 5).map pyReprVal)]
      else []
    let d_dtype := match e.dtype with
      | some dt => if dt == "" then [] else dtypeDiagnostics series dt e.fmt
      | none => []
    let d_allowed := match e.allowed_values with
      | some allowed =>
          if allowed.isEmpty then []
          else
            let invalid := series.enum.filter
              (fun p => !(p.2 == Val.null) && !(allowed.contains (pyStrVal p.2)))
            if invalid.isEmpty then []
            else
              ["unexpected values; rows " ++ fmtNatList (invalid.map Prod.fst) ++
                "; samples: " ++ fmtPyList (((invalid.map Prod.snd).take 5).map pyStrRepr)]
      | none => []
    let d_regex := match e.regex with
      | some pat =>
          if pat == "" then []
          else
            let strs := (series.enum.filter (fun p => !(p.2 == Val.null))).map
              (fun p => (p.1, pyStrVal p.2))
            let invalid := strs.filter (fun p => !regexFullMatch pat p.2)
            if invalid.isEmpty then []
            else
              ["regex mismatch /" ++ pat ++ "/; rows " ++ fmtNatList (invalid.map Prod.fst) ++
                "; samples: " ++
                fmtPyList (((invalid.map Prod.snd).take 5).map (fun s => sq ++ s ++ sq))]
      | none => []
    let diagnostics := d_null ++ d_uniq ++ d_dtype ++ d_allowed ++ d_regex
    ⟨e.name, diagnostics.isEmpty, diagnostics⟩

/-! ### check.py: `_validate_row_rule` and `df.eval` -/

/-- A comparison operator of the row-rule expression language. -/
inductive CmpOp where
  | ge : CmpOp
  | le : CmpOp
  | gt : CmpOp
  | lt : CmpOp
  | eq : CmpOp
  | ne : CmpOp
deriving DecidableEq, Repr

/-- Read an operator token. -/
def parseCmpOp : String → Option CmpOp
  | ">=" => some .ge
  | "<=" => some .le
  | ">" => some .gt
  | "<" => some .lt
  | "==" => some .eq
  | "!=" => some .ne
  | _ => none

/-- Apply a comparison. -/
def cmpQ : CmpOp → ℚ → ℚ → Bool
  | .ge, a, b => decide (a ≥ b)
  | .le, a, b => decide (a ≤ b)
  | .gt, a, b => decide (a > b)
  | .lt, a, b => decide (a < b)
  | .eq, a, b => decide (a = b)
  | .ne, a, b => decide (a ≠ b)

/-- `df.eval(expression)`, minimally modelled over the expression family
the repository's rules use: one column compared against a numeric
literal.  An unknown column name raises (pandas: `UndefinedVariableError:
name ... is not defined`), a malformed expression raises a syntax error,
and a comparison against a non-numeric column raises a `TypeError`; each
error carries text embedded into the rule's message.  `NaN` cells compare
`False`, as in pandas. -/
def dfEval (t : Table) (expr : String) : Except String (List Bool) :=
  match (((splitOnChar ' ' (pyStrip expr).data).map (fun l => (⟨l⟩ : String))).filter
      (fun s => !(s == ""))) with
  | [identName, opTok, litTok] =>
      match parseCmpOp opTok, parseNumeric litTok with
      | some op, some lit =>
          if decide (identName ∈ colNames t.schema) then
            if getFlag t.schema identName then
              .ok (t.rows.map fun r =>
                match getVal t.schema r identName with
                | .num q => cmpQ op q lit
                | _ => false)
            else .error ("TypeError: unsupported comparison for column " ++ identName)
          else .error ("name " ++ sq ++ identName ++ sq ++ " is not defined")
      | _, _ => .error ("invalid syntax: " ++ expr)
  | _ => .error ("invalid syntax: " ++ expr)

/-- `_validate_row_rule`: an evaluation error downgrades the rule to one
failing result covering every row; otherwise rows where the mask is
false fail. -/
def validateRowRule (t : Table) (rule : RowRule) : RowRuleResult :=
  match dfEval t rule.expression with
  | .error e =>
      ⟨rule.description, false, List.range t.rows.length,
        some ("failed to evaluate expression: " ++ e)⟩
  | .ok mask =>
      let failing := (mask.enum.filter (fun p => !p.2)).map Prod.fst
      let passed := failing.isEmpty
      let message :=
        if failing.isEmpty then none
        else some ("rows failing rule " ++ sq ++ rule.expression ++ sq ++ ": " ++
          fmtNatList failing)
      ⟨rule.description, passed, failing, message⟩

/-! ### check.py: `_run_validator` -/

/-- The value a custom validator returns: a pre-built result, a boolean, a
per-row boolean Series, a 2-tuple `(verdict, message)`, or a value of any
other shape. -/
inductive VOutcome where
  | result : RowRuleResult → VOutcome
  | bool : Bool → VOutcome
  | series : List Bool → VOutcome
  | pair : VOutcome → Option String → VOutcome
  | other : VOutcome
deriving Repr

/-- A caller-supplied validator: a pre-built `RowRuleResult` passed in the
list, or a predicate with its description (the description comes from the
tuple's first slot or the function's `__name__`). -/
inductive Validator where
  | result : RowRuleResult → Validator
  | func : String → (Table → VOutcome) → Validator

/-- Python `message or fallback` on an optional message (an empty string
is falsy). -/
def orElseStr (m fallback : Option String) : Option String :=
  match m with
  | some s => if s == "" then fallback else some s
  | none => fallback

/-- `_run_validator`: a pre-built result is returned as is; a 2-tuple is
unpacked into verdict and message; a Series verdict gives per-row
failures, a boolean verdict all-or-nothing; any other final verdict
raises the fatal `TypeError` (modelled as the `Except` error). -/
def runValidator (df : Table) : Validator → Except String RowRuleResult
  | .result r => .ok r
  | .func desc f =>
      let outcome := f df
      match outcome with
      | .result r => .ok r
      | _ =>
          let (verdict, message) : VOutcome × Option String :=
            match outcome with
            | .pair v m => (v, m)
            | o => (o, none)
          match verdict with
          | .series mask =>
              let failing := (mask.enum.filter (fun p => !p.2)).map Prod.fst
              let passed := failing.isEmpty
              let detail := orElseStr message
                (if failing.isEmpty then none
                 else some ("rows failing custom validator " ++ sq ++ desc ++ sq ++ ": " ++
                   fmtNatList failing))
              .ok ⟨desc, passed, failing, detail⟩
          | .bool b =>
              let failing := if b then [] else List.range df.rows.length
              let detail := orElseStr message
                (if b then none else some ("validator " ++ sq ++ desc ++ sq ++ " failed"))
              .ok ⟨desc, b, failing, detail⟩
          | _ => .error "custom validators must return a bool, pandas Series, or RowRuleResult"

/-- The final verdict of an outcome: the first slot of a 2-tuple, the
outcome itself otherwise. -/
def finalVerdict : VOutcome → VOutcome
  | .pair v _ => v
  | o => o

/-- Is the outcome a pre-built result? -/
def isResultOutcome : VOutcome → Bool
  | .result _ => true
  | _ => false

/-- Is a verdict a boolean or a per-row boolean Series? -/
def isBoolOrSeriesVerdict : VOutcome → Bool
  | .bool _ => true
  | .series _ => true
  | _ => false

/-! ### check.py: `expect_df` and the report rendering -/

/-- `expect_df`: parse, run the custom validators (a contract violation
raises, aborting the call), evaluate every column rule and row rule, and
aggregate `passed` as the conjunction over all sub-results. -/
def expect_df (df : Table) (expectations : List String)
    (row_rules : List String := []) (validators : List Validator := []) :
    Except String ExpectationReport := do
  let (colExps, parsedRowRules0) := parseExpectations expectations
  let parsedRowRules := parsedRowRules0 ++ parseRowRules row_rules
  let customResults ← validators.mapM (runValidator df)
  let columnResults := colExps.map (validateColumn df)
  let rowResults := parsedRowRules.map (validateRowRule df)
  let passed := columnResults.all (fun r => r.passed) &&
    rowResults.all (fun r => r.passed) && customResults.all (fun r => r.passed)
  pure ⟨passed, columnResults, rowResults, customResults⟩

/-- `ExpectationReport.to_human_readable`. -/
def ExpectationReport.to_human_readable (r : ExpectationReport) : String :=
  let lines := ["Expectation report: " ++ (if r.passed then "PASSED" else "FAILED")]
  let lines := lines ++
    (if r.column_results.isEmpty then []
     else "Columns:" :: r.column_results.map fun c =>
       "- " ++ c.column ++ ": " ++ (if c.passed then "PASS" else "FAIL") ++
         (if c.diagnostics.isEmpty then ""
          else " -> " ++ String.intercalate " | " c.diagnostics))
  let lines := lines ++
    (if r.row_results.isEmpty then []
     else "Row rules:" :: r.row_results.map fun c =>
       "- " ++ c.description ++ ": " ++ (if c.passed then "PASS" else "FAIL") ++
         (match c.message with
          | some m => if m == "" then "" else " -> " ++ m
          | none => ""))
  let lines := lines ++
    (if r.custom_results.isEmpty then []
     else "Custom validators:" :: r.custom_results.map fun c =>
       "- " ++ c.description ++ ": " ++ (if c.passed then "PASS" else "FAIL") ++
         (match c.message with
          | some m => if m == "" then "" else " -> " ++ m
          | none => ""))
  String.intercalate "\n" lines

/-! ### Cell access and concrete fixtures used by the witnesses -/

/-- Cell at row `i`, column position `j` (`df.iat[i, j]`). -/
def getCell (t : Table) (i j : Nat) : Option Val :=
  t.rows[i]?.bind fun r => r[j]?

/-- Which column names the side-suffix swap `_a ↔ _b` maps a name to. -/
def swapName (n : String) : String :=
  if strEndsWith n "_a" then dropLast2 n ++ "_b"
  else if strEndsWith n "_b" then dropLast2 n ++ "_a"
  else n

/-- Spec scenario 2 side A: `{id:[1], value:[100.25]}` (the value is the
rational 401/4). -/
def tolA : Table := ⟨[⟨"id", true⟩, ⟨"value", true⟩], [[.num 1, .num (Rat.divInt 401 4)]]⟩

/-- Spec scenario 2 side B: `{id:[1], value:[100.0]}`. -/
def tolB : Table := ⟨[⟨"id", true⟩, ⟨"value", true⟩], [[.num 1, .num 100]]⟩

/-- A one-row frame with a missing value in a compared numeric column. -/
def nullA : Table := ⟨[⟨"id", true⟩, ⟨"x", true⟩], [[.num 1, .null]]⟩

/-- Its counterpart with the value present. -/
def nullB : Table := ⟨[⟨"id", true⟩, ⟨"x", true⟩], [[.num 1, .num 1]]⟩

/-- A one-row frame whose key does not occur on the other side. -/
def swapA : Table := ⟨[⟨"id", true⟩, ⟨"v", true⟩], [[.num 1, .num 10]]⟩

/-- The other side, with a different key. -/
def swapB : Table := ⟨[⟨"id", true⟩, ⟨"v", true⟩], [[.num 2, .num 20]]⟩

/-- Spec scenario 1 side A: `{id:[1,2,3], price:[100,200,300]}`. -/
def scA : Table :=
  ⟨[⟨"id", true⟩, ⟨"price", true⟩],
    [[.num 1, .num 100], [.num 2, .num 200], [.num 3, .num 300]]⟩

/-- Spec scenario 1 side B: `{id:[2,3,4], price:[200,250,400]}`. -/
def scB : Table :=
  ⟨[⟨"id", true⟩, ⟨"price", true⟩],
    [[.num 2, .num 200], [.num 3, .num 250], [.num 4, .num 400]]⟩

/-- Spec scenario 3 frame: `{id:[1,1,2]}`. -/
def dupDf : Table := ⟨[⟨"id", true⟩], [[.num 1], [.num 1], [.num 2]]⟩

/-- Spec scenario 4 frame: `{amount:[10,-5,0]}`. -/
def amountDf : Table := ⟨[⟨"amount", true⟩], [[.num 10], [.num (-5)], [.num 0]]⟩

/-- A frame with one numeric and one string column, for the trimming
witness. -/
def trimDf : Table := ⟨[⟨"n", true⟩, ⟨"s", false⟩], [[.num 3, .str "  x "]]⟩

/-- The key combinations of a table's rows, by the given key columns. -/
def keyList (t : Table) (keys : List String) : List (List Val) :=
  t.rows.map (keyVals t.schema keys)

/-- The key combinations of the matched (`both`) group of the merge —
the group the mismatch mask is evaluated over. -/
def bothKeyList (a b : Table) (keys : List String) : List (List Val) :=
  (((mergedRows a b keys).filter (fun p => p.2 == MergeTag.both)).map Prod.fst).map
    (keyVals (mergedSchema a b keys) keys)

end Analysta

namespace Analysta

/-! ### Helper lemmas: dropWhile, strings -/

theorem dropWhile_head_not {α : Type} (p : α → Bool) :
    ∀ (l : List α) (x : α), (l.dropWhile p).head? = some x → p x = false := by
  intro l
  induction l with
  | nil => intro x h; simp [List.dropWhile] at h
  | cons a as ih =>
      intro x h
      by_cases hp : p a = true
      · rw [List.dropWhile_cons_of_pos hp] at h
        exact ih x h
      · rw [List.dropWhile_cons_of_neg hp] at h
        simp at h
        subst h
        simpa using hp

theorem dropWhile_eq_self_of_head {α : Type} (p : α → Bool) (l : List α)
    (h : ∀ x, l.head? = some x → p x = false) : l.dropWhile p = l := by
  cases l with
  | nil => rfl
  | cons a as =>
      have := h a rfl
      rw [List.dropWhile_cons_of_neg (by simp [this])]

theorem dropWhile_idem {α : Type} (p : α → Bool) (l : List α) :
    (l.dropWhile p).dropWhile p = l.dropWhile p := by
  apply dropWhile_eq_self_of_head
  intro x hx
  exact dropWhile_head_not p l x hx

theorem stripped_no_head_ws (l : List Char) (x : Char)
    (hx : (((l.dropWhile Char.isWhitespace).reverse.dropWhile
        Char.isWhitespace).reverse).head? = some x) :
    Char.isWhitespace x = false := by
  have hx2 : ((l.dropWhile Char.isWhitespace).reverse.dropWhile
      Char.isWhitespace).getLast? = some x := by
    rwa [List.head?_reverse] at hx
  have hne : (l.dropWhile Char.isWhitespace).reverse.dropWhile Char.isWhitespace ≠ [] := by
    intro h
    rw [h] at hx2
    simp at hx2
  have hsplit := List.takeWhile_append_dropWhile (p := Char.isWhitespace)
      (l := (l.dropWhile Char.isWhitespace).reverse)
  have h2 : (l.dropWhile Char.isWhitespace).reverse.getLast? = some x := by
    rw [← hsplit, List.getLast?_append_of_ne_nil _ hne]
    exact hx2
  have h3 : (l.dropWhile Char.isWhitespace).head? = some x := by
    rwa [List.getLast?_reverse] at h2
  exact dropWhile_head_not Char.isWhitespace l x h3

theorem pyStrip_idem (s : String) : pyStrip (pyStrip s) = pyStrip s := by
  unfold pyStrip
  congr 1
  rw [dropWhile_eq_self_of_head Char.isWhitespace _
      (fun x hx => stripped_no_head_ws s.data x hx)]
  rw [List.reverse_reverse, dropWhile_idem]

theorem trimVal_idem (v : Val) : trimVal (trimVal v) = trimVal v := by
  cases v with
  | str s => simp [trimVal, pyStrip_idem]
  | null => rfl
  | num q => rfl

theorem trimRow_idem (s : List ColInfo) (r : List Val) :
    trimRow s (trimRow s r) = trimRow s r := by
  induction s generalizing r with
  | nil => cases r <;> rfl
  | cons c cs ih =>
      cases r with
      | nil => rfl
      | cons v vs =>
          by_cases hc : c.isNum = true
          · simp [trimRow, hc, ih]
          · simp only [Bool.not_eq_true] at hc
            simp [trimRow, hc, ih, trimVal_idem]

theorem trimRow_preserves_nonstring (s : List ColInfo) (r : List Val) (j : Nat) (v : Val)
    (hv : r[j]? = some v) (hns : ∀ x, v ≠ .str x) : (trimRow s r)[j]? = some v := by
  induction s generalizing r j with
  | nil =>
      cases r with
      | nil => simp at hv
      | cons a as => exact hv
  | cons c cs ih =>
      cases r with
      | nil => simp at hv
      | cons a as =>
          cases j with
          | zero =>
              simp only [List.getElem?_cons_zero, Option.some.injEq] at hv
              subst hv
              cases hc : c.isNum with
              | true => simp [trimRow, hc]
              | false =>
                  have hvt : trimVal a = a := by
                    cases a with
                    | str x => exact absurd rfl (hns x)
                    | null => rfl
                    | num q => rfl
                  simp [trimRow, hc, hvt]
          | succ j' =>
              simp only [List.getElem?_cons_succ] at hv
              cases hc : c.isNum with
              | true => simpa [trimRow, hc] using ih as j' hv
              | false => simpa [trimRow, hc] using ih as j' hv

/-- C9: `trim_whitespace` is idempotent, and it changes only string
cells — every non-string cell is returned unchanged. -/
theorem trim_whitespace_idem_and_nonstring_cells :
    (∀ t : Table, trim_whitespace (trim_whitespace t) = trim_whitespace t) ∧
    (∀ (t : Table) (i j : Nat) (v : Val), getCell t i j = some v →
      (∀ x, v ≠ .str x) → getCell (trim_whitespace t) i j = some v) := by
  constructor
  · intro t
    simp only [trim_whitespace]
    congr 1
    rw [List.map_map]
    exact List.map_congr_left (fun r _ => trimRow_idem t.schema r)
  · intro t i j v hv hns
    unfold getCell at hv ⊢
    unfold trim_whitespace
    simp only [List.getElem?_map]
    cases hr : t.rows[i]? with
    | none => rw [hr] at hv; simp at hv
    | some r =>
        rw [hr] at hv
        simp only [Option.some_bind, Option.map_some'] at hv ⊢
        exact trimRow_preserves_nonstring t.schema r j v hv hns

/-- C9 witness: the trimming fixture, trimmed twice, is its single
trimming, and its numeric cell survives untouched. -/
theorem trim_whitespace_idem_witness :
    trim_whitespace (trim_whitespace trimDf) = trim_whitespace trimDf ∧
    getCell (trim_whitespace trimDf) 0 0 = some (.num 3) :=
  ⟨trim_whitespace_idem_and_nonstring_cells.1 trimDf,
   trim_whitespace_idem_and_nonstring_cells.2 trimDf 0 0 (.num 3) rfl
     (fun x h => by cases h)⟩

/-! ### C1: the tolerance band -/

theorem numEqual_boundary_strict :
    numEqual 0 (1/1000) (.num (Rat.divInt 401 4)) (.num 100) = false := by
  simp only [numEqual, decide_eq_false_iff_not]
  rw [show (Rat.divInt 401 4 : ℚ) = 401/4 by rw [Rat.divInt_eq_div]; norm_num]
  rw [show (401:ℚ)/4 - 100 = 1/4 by norm_num]
  rw [abs_of_nonneg (by norm_num : (0:ℚ) ≤ 1/4),
    abs_of_nonneg (by norm_num : (0:ℚ) ≤ 100)]
  norm_num

theorem numEqual_boundary_close :
    numEqual 0 (25/10000) (.num (Rat.divInt 401 4)) (.num 100) = true := by
  simp only [numEqual, decide_eq_true_eq]
  rw [show (Rat.divInt 401 4 : ℚ) = 401/4 by rw [Rat.divInt_eq_div]; norm_num]
  rw [show (401:ℚ)/4 - 100 = 1/4 by norm_num]
  rw [abs_of_nonneg (by norm_num : (0:ℚ) ≤ 1/4),
    abs_of_nonneg (by norm_num : (0:ℚ) ≤ 100)]
  norm_num

theorem tol_mismatch_rows_strict :
    (Delta.make tolA tolB ["id"] 0 (1/1000)).mismatches.rows.length = 1 := by
  have h1 : (Delta.make tolA tolB ["id"] 0 (1/1000)).mismatches.rows
      = List.filter (rowDiff 0 (1/1000)
          [⟨"id", true⟩, ⟨"value_a", true⟩, ⟨"value_b", true⟩])
        [[.num 1, .num (Rat.divInt 401 4), .num 100]] := rfl
  have hca : colDiff 0 (1/1000)
      [⟨"id", true⟩, ⟨"value_a", true⟩, ⟨"value_b", true⟩]
      [.num 1, .num (Rat.divInt 401 4), .num 100] ⟨"value_a", true⟩
      = !(numEqual 0 (1/1000) (.num (Rat.divInt 401 4)) (.num 100)) := rfl
  have hrd : rowDiff 0 (1/1000)
      [⟨"id", true⟩, ⟨"value_a", true⟩, ⟨"value_b", true⟩]
      [.num 1, .num (Rat.divInt 401 4), .num 100] = true := by
    apply List.any_eq_true.2
    refine ⟨⟨"value_a", true⟩, by decide, ?_⟩
    rw [hca, numEqual_boundary_strict]
    rfl
  rw [h1, List.filter_cons, hrd]
  simp

theorem tol_mismatch_rows_close :
    (Delta.make tolA tolB ["id"] 0 (25/10000)).mismatches.rows.length = 0 := by
  have h1 : (Delta.make tolA tolB ["id"] 0 (25/10000)).mismatches.rows
      = List.filter (rowDiff 0 (25/10000)
          [⟨"id", true⟩, ⟨"value_a", true⟩, ⟨"value_b", true⟩])
        [[.num 1, .num (Rat.divInt 401 4), .num 100]] := rfl
  have hca : colDiff 0 (25/10000)
      [⟨"id", true⟩, ⟨"value_a", true⟩, ⟨"value_b", true⟩]
      [.num 1, .num (Rat.divInt 401 4), .num 100] ⟨"value_a", true⟩
      = !(numEqual 0 (25/10000) (.num (Rat.divInt 401 4)) (.num 100)) := rfl
  have hrd : rowDiff 0 (25/10000)
      [⟨"id", true⟩, ⟨"value_a", true⟩, ⟨"value_b", true⟩]
      [.num 1, .num (Rat.divInt 401 4), .num 100] = false := by
    apply List.any_eq_false.2
    intro c hc
    simp only [List.mem_cons, List.not_mem_nil, or_false] at hc
    rcases hc with h | h | h
    · subst h; decide
    · subst h
      simp only [Bool.not_eq_true]
      rw [hca, numEqual_boundary_close]
      rfl
    · subst h; decide
  rw [h1, List.filter_cons, hrd]
  simp

/-- C1: in a matched row, a compared numeric column holding `a` and `b`
is clean precisely when `|a - b| ≤ abs_tol + rel_tol * |b|` — the
relative term scales by the B-side magnitude; and on the spec's boundary
case (`a = 100.25`, `b = 100.0`, `abs_tol = 0`) the row mismatches for
`rel_tol = 0.001` and is clean for `rel_tol = 0.0025`. -/
theorem tolerance_band_iff (abs_tol rel_tol : ℚ) (schema : List ColInfo)
    (r : List Val) (c : ColInfo) (a b : ℚ)
    (hnum : c.isNum = true) (hend : strEndsWith c.name "_a" = true)
    (hmem : dropLast2 c.name ++ "_b" ∈ colNames schema)
    (ha : getVal schema r c.name = .num a)
    (hb : getVal schema r (dropLast2 c.name ++ "_b") = .num b) :
    (colDiff abs_tol rel_tol schema r c = false ↔
      |a - b| ≤ abs_tol + rel_tol * |b|) ∧
    (Delta.make tolA tolB ["id"] 0 (1/1000)).mismatches.rows.length = 1 ∧
    (Delta.make tolA tolB ["id"] 0 (25/10000)).mismatches.rows.length = 0 := by
  refine ⟨?_, tol_mismatch_rows_strict, tol_mismatch_rows_close⟩
  simp only [colDiff, hend, if_true, hmem, if_pos, hnum, ha, hb, numEqual]
  simp

/-- C1 witness: the boundary scenario's merged row instantiates the
equivalence. -/
theorem tolerance_band_iff_witness :
    (colDiff 0 (1/1000)
        [⟨"id", true⟩, ⟨"value_a", true⟩, ⟨"value_b", true⟩]
        [.num 1, .num (Rat.divInt 401 4), .num 100] ⟨"value_a", true⟩ = false ↔
      |(Rat.divInt 401 4 : ℚ) - 100| ≤ 0 + (1/1000) * |(100 : ℚ)|) ∧
    (Delta.make tolA tolB ["id"] 0 (1/1000)).mismatches.rows.length = 1 ∧
    (Delta.make tolA tolB ["id"] 0 (25/10000)).mismatches.rows.length = 0 :=
  tolerance_band_iff 0 (1/1000)
    [⟨"id", true⟩, ⟨"value_a", true⟩, ⟨"value_b", true⟩]
    [.num 1, .num (Rat.divInt 401 4), .num 100] ⟨"value_a", true⟩ (Rat.divInt 401 4) 100
    rfl (by decide) (by decide) (by decide) (by decide)

/-! ### C3: missing values never compare equal -/

/-- C3: a missing value on either side of any compared column of a
matched row makes the row a mismatch — the `NaN` marker equals nothing,
another `NaN` included, in numeric and object columns alike. -/
theorem null_mismatch_row (df_a df_b : Table) (keys : List String)
    (abs_tol rel_tol : ℚ) (r : List Val) (c : ColInfo)
    (hr : (r, MergeTag.both) ∈
      mergedRows (trim_whitespace df_a) (trim_whitespace df_b) keys)
    (hc : c ∈ mergedSchema (trim_whitespace df_a) (trim_whitespace df_b) keys)
    (hend : strEndsWith c.name "_a" = true)
    (hmem : dropLast2 c.name ++ "_b" ∈
      colNames (mergedSchema (trim_whitespace df_a) (trim_whitespace df_b) keys))
    (hnull : getVal (mergedSchema (trim_whitespace df_a) (trim_whitespace df_b) keys) r
        c.name = .null ∨
      getVal (mergedSchema (trim_whitespace df_a) (trim_whitespace df_b) keys) r
        (dropLast2 c.name ++ "_b") = .null) :
    r ∈ (Delta.make df_a df_b keys abs_tol rel_tol).mismatches.rows := by
  have hdiff : rowDiff abs_tol rel_tol
      (mergedSchema (trim_whitespace df_a) (trim_whitespace df_b) keys) r = true := by
    apply List.any_eq_true.2
    refine ⟨c, hc, ?_⟩
    simp only [colDiff, hend, if_true, hmem, if_pos]
    cases hn : c.isNum with
    | true =>
        simp only [if_true]
        rcases hnull with h | h
        · rw [h]
          cases getVal (mergedSchema (trim_whitespace df_a) (trim_whitespace df_b) keys) r
              (dropLast2 c.name ++ "_b") <;> rfl
        · rw [h]
          cases getVal (mergedSchema (trim_whitespace df_a) (trim_whitespace df_b) keys) r
              c.name <;> rfl
    | false =>
        simp only [Bool.false_eq_true, if_false]
        rcases hnull with h | h
        · rw [h]
          cases getVal (mergedSchema (trim_whitespace df_a) (trim_whitespace df_b) keys) r
              (dropLast2 c.name ++ "_b") <;> rfl
        · rw [h]
          cases getVal (mergedSchema (trim_whitespace df_a) (trim_whitespace df_b) keys) r
              c.name <;> rfl
  show r ∈ (buildFrames (trim_whitespace df_a) (trim_whitespace df_b) keys
      abs_tol rel_tol).mismatches.rows
  simp only [buildFrames]
  refine List.mem_filter.2 ⟨List.mem_map.2 ⟨(r, MergeTag.both), List.mem_filter.2
    ⟨hr, by simp⟩, rfl⟩, hdiff⟩

/-- C3 witness: a matched row with `NaN` on the A side of the compared
numeric column `x` lands in `mismatches`. -/
theorem null_mismatch_row_witness :
    [Val.num 1, Val.null, Val.num 1] ∈
      (Delta.make nullA nullB ["id"] 0 0).mismatches.rows :=
  null_mismatch_row nullA nullB ["id"] 0 0 [Val.num 1, Val.null, Val.num 1]
    ⟨"x_a", true⟩ (by decide) (by decide) (by decide) (by decide)
    (Or.inl (by decide))

/-! ### C6: the integer type check -/

/-- C6 counterexample: the value 3 + 1e-9 has a non-zero fractional part
yet passes the integer check, because the source tests the fractional
part with `np.isclose(..., 0)` (absolute tolerance 1e-8), not exact
equality. -/
theorem integer_check_not_exact_counterexample :
    intCellInvalid (.num (Rat.divInt 3000000001 1000000000)) = false ∧
    Int.fract (Rat.divInt 3000000001 1000000000 : ℚ) ≠ 0 := by
  have hq : (Rat.divInt 3000000001 1000000000 : ℚ) = 3000000001/1000000000 := by
    rw [Rat.divInt_eq_div]; norm_num
  have hfract : Int.fract ((3000000001:ℚ)/1000000000) = 1/1000000000 := by
    norm_num [Int.fract]
  constructor
  · show (!(decide (|Int.fract (Rat.divInt 3000000001 1000000000 : ℚ)| ≤
      (1 : ℚ) / 100000000))) = false
    have hle : ((1:ℚ)/1000000000 ≤ 1/100000000) := by norm_num
    rw [hq, hfract, abs_of_nonneg (by norm_num : (0:ℚ) ≤ 1/1000000000),
      decide_eq_true hle]
    rfl
  · rw [hq, hfract]
    norm_num

/-- C6 amended: a non-null value passes the integer type check iff its
numeric conversion succeeds and its fractional part (`converted % 1`) is
within `np.isclose`'s default absolute tolerance 1e-8 of zero — not only
when it is exactly zero. -/
theorem integer_check_isclose_iff (v : Val) (hv : v ≠ .null) :
    intCellInvalid v = false ↔
      ∃ q, toNumeric v = some q ∧ |Int.fract q| ≤ (1 : ℚ) / 100000000 := by
  cases v with
  | null => exact absurd rfl hv
  | num q =>
      show (!(decide (|Int.fract q| ≤ (1 : ℚ) / 100000000))) = false ↔ _
      simp [toNumeric]
  | str s =>
      cases hp : parseNumeric s with
      | none =>
          show (match toNumeric (.str s) with
            | none => true
            | some q => !(decide (|Int.fract q| ≤ (1 : ℚ) / 100000000))) = false ↔ _
          simp [toNumeric, hp]
      | some q =>
          show (match toNumeric (.str s) with
            | none => true
            | some q => !(decide (|Int.fract q| ≤ (1 : ℚ) / 100000000))) = false ↔ _
          simp [toNumeric, hp]

/-- C6 witness: the whole number 3 passes the (amended) check. -/
theorem integer_check_isclose_iff_witness :
    intCellInvalid (.num 3) = false ↔
      ∃ q, toNumeric (.num 3) = some q ∧ |Int.fract q| ≤ (1 : ℚ) / 100000000 :=
  integer_check_isclose_iff (.num 3) (by simp)

/-! ### C7: row-rule evaluation errors are isolated -/

theorem mapM_ok_length {α β : Type} (f : α → Except String β) :
    ∀ (l : List α) (bs : List β), l.mapM f = .ok bs → bs.length = l.length := by
  intro l
  induction l with
  | nil =>
      intro bs h
      simp only [List.mapM_nil, pure, Except.pure, Except.ok.injEq] at h
      subst h
      rfl
  | cons a as ih =>
      intro bs h
      simp only [List.mapM_cons] at h
      cases hfa : f a with
      | error e => rw [hfa] at h; simp [Bind.bind, Except.bind] at h
      | ok b =>
          rw [hfa] at h
          cases hml : as.mapM f with
          | error e =>
              rw [hml] at h
              simp [Bind.bind, Except.bind, pure, Except.pure] at h
          | ok bs' =>
              rw [hml] at h
              simp only [Bind.bind, Except.bind, pure, Except.pure,
                Except.ok.injEq] at h
              subst h
              simp [ih bs' hml]

/-- C7: an evaluation error downgrades the row rule to a single failing
result whose failing rows cover the whole frame and whose message embeds
the error text; and `expect_df` still evaluates every column rule and row
rule and every validator into the produced report. -/
theorem row_rule_error_isolated :
    (∀ (df : Table) (rule : RowRule) (e : String),
      dfEval df rule.expression = .error e →
      validateRowRule df rule =
        ⟨rule.description, false, List.range df.rows.length,
          some ("failed to evaluate expression: " ++ e)⟩) ∧
    (∀ (df : Table) (lines rowRules : List String) (validators : List Validator)
        (report : ExpectationReport),
      expect_df df lines rowRules validators = .ok report →
      report.column_results = (parseExpectations lines).1.map (validateColumn df) ∧
      report.row_results =
        ((parseExpectations lines).2 ++ parseRowRules rowRules).map
          (validateRowRule df) ∧
      report.custom_results.length = validators.length) := by
  constructor
  · intro df rule e he
    simp [validateRowRule, he]
  · intro df lines rowRules validators report h
    unfold expect_df at h
    cases hm : validators.mapM (runValidator df) with
    | error e =>
        rw [hm] at h
        simp [Bind.bind, Except.bind] at h
    | ok cs =>
        rw [hm] at h
        simp only [Bind.bind, Except.bind, pure, Except.pure, Except.ok.injEq] at h
        subst h
        exact ⟨rfl, rfl, mapM_ok_length (runValidator df) validators cs hm⟩

/-- C7 witness: the rule `bogus >= 0` over `{amount:[10,-5,0]}` fails to
evaluate and is downgraded without aborting the report. -/
theorem row_rule_error_isolated_witness :
    validateRowRule amountDf ⟨"rows must satisfy bogus >= 0", "bogus >= 0"⟩ =
      ⟨"rows must satisfy bogus >= 0", false, List.range amountDf.rows.length,
        some ("failed to evaluate expression: " ++
          ("name " ++ sq ++ "bogus" ++ sq ++ " is not defined"))⟩ ∧
    ((⟨false, [],
        [⟨"rows must satisfy bogus >= 0", false, [0, 1, 2],
          some ("failed to evaluate expression: name " ++ sq ++ "bogus" ++ sq ++
            " is not defined")⟩], []⟩ : ExpectationReport).column_results =
      (parseExpectations []).1.map (validateColumn amountDf) ∧
    (⟨false, [],
        [⟨"rows must satisfy bogus >= 0", false, [0, 1, 2],
          some ("failed to evaluate expression: name " ++ sq ++ "bogus" ++ sq ++
            " is not defined")⟩], []⟩ : ExpectationReport).row_results =
      ((parseExpectations []).2 ++ parseRowRules ["rows must satisfy bogus >= 0"]).map
        (validateRowRule amountDf) ∧
    (⟨false, [],
        [⟨"rows must satisfy bogus >= 0", false, [0, 1, 2],
          some ("failed to evaluate expression: name " ++ sq ++ "bogus" ++ sq ++
            " is not defined")⟩], []⟩ : ExpectationReport).custom_results.length =
      ([] : List Validator).length) :=
  ⟨row_rule_error_isolated.1 amountDf ⟨"rows must satisfy bogus >= 0", "bogus >= 0"⟩
      ("name " ++ sq ++ "bogus" ++ sq ++ " is not defined") rfl,
   row_rule_error_isolated.2 amountDf [] ["rows must satisfy bogus >= 0"] [] _ rfl⟩

/-! ### C8: the uniqueness scenario -/

/-- C8: the rule text `column id should be unique` against `{id:[1,1,2]}`
yields a failed report with exactly one column result, for `id`, whose
diagnostic lists the duplicate row positions `[0, 1]`. -/
theorem unique_rule_scenario :
    expect_df dupDf ["column id should be unique"] = .ok
      ⟨false, [⟨"id", false,
        ["expected unique values; duplicate rows [0, 1]; samples: [1, 1]"]⟩], [], []⟩ ∧
    strContains "expected unique values; duplicate rows [0, 1]; samples: [1, 1]"
      "[0, 1]" = true :=
  ⟨rfl, rfl⟩

/-! ### C10: custom-validator outcome normalization -/

/-- C10 counterexample: a validator returning a 2-tuple that wraps a
pre-built result is rejected with the fatal TypeError even though its
final verdict is a pre-built result. -/
theorem run_validator_tuple_result_counterexample :
    runValidator amountDf (Validator.func "v"
      (fun _ => VOutcome.pair (.result ⟨"r", true, [], none⟩) none)) =
      .error "custom validators must return a bool, pandas Series, or RowRuleResult" ∧
    finalVerdict (VOutcome.pair (.result ⟨"r", true, [], none⟩) none) =
      .result ⟨"r", true, [], none⟩ ∧
    isResultOutcome (finalVerdict
      (VOutcome.pair (.result ⟨"r", true, [], none⟩) none)) = true :=
  ⟨rfl, rfl, rfl⟩

/-- C10 amended: a 2-tuple `(verdict, message)` with a boolean or Series
verdict is normalized into a pass/fail result carrying the message; the
fatal TypeError is raised exactly when the outcome is not itself a
pre-built result and its final verdict is neither a boolean nor a Series
— in particular a tuple wrapping a pre-built result is rejected. -/
theorem run_validator_tuple_normalization (df : Table) (desc : String)
    (f : Table → VOutcome) :
    (∀ b m, f df = .pair (.bool b) m →
      runValidator df (.func desc f) = .ok
        ⟨desc, b, if b then [] else List.range df.rows.length,
          orElseStr m (if b then none
            else some ("validator " ++ sq ++ desc ++ sq ++ " failed"))⟩) ∧
    (∀ mask m, f df = .pair (.series mask) m →
      runValidator df (.func desc f) = .ok
        ⟨desc, ((mask.enum.filter (fun p => !p.2)).map Prod.fst).isEmpty,
          (mask.enum.filter (fun p => !p.2)).map Prod.fst,
          orElseStr m
            (if ((mask.enum.filter (fun p => !p.2)).map Prod.fst).isEmpty then none
             else some ("rows failing custom validator " ++ sq ++ desc ++ sq ++ ": " ++
               fmtNatList ((mask.enum.filter (fun p => !p.2)).map Prod.fst)))⟩) ∧
    (runValidator df (.func desc f) =
        .error "custom validators must return a bool, pandas Series, or RowRuleResult" ↔
      isResultOutcome (f df) = false ∧
        isBoolOrSeriesVerdict (finalVerdict (f df)) = false) := by
  refine ⟨?_, ?_, ?_⟩
  · intro b m hf
    simp [runValidator, hf]
  · intro mask m hf
    simp [runValidator, hf]
  · cases hf : f df with
    | result r => simp [runValidator, hf, isResultOutcome, finalVerdict]
    | bool b => simp [runValidator, hf, isResultOutcome, isBoolOrSeriesVerdict, finalVerdict]
    | series mask =>
        simp [runValidator, hf, isResultOutcome, isBoolOrSeriesVerdict, finalVerdict]
    | other => simp [runValidator, hf, isResultOutcome, isBoolOrSeriesVerdict, finalVerdict]
    | pair v m =>
        cases v <;>
          simp [runValidator, hf, isResultOutcome, isBoolOrSeriesVerdict, finalVerdict]

/-- C10 witness: a tuple `(True, "msg")` normalizes into a passing result
carrying the message. -/
theorem run_validator_tuple_normalization_witness :
    runValidator amountDf (.func "v" (fun _ => .pair (.bool true) (some "msg"))) =
      .ok ⟨"v", true, [], some "msg"⟩ :=
  (run_validator_tuple_normalization amountDf "v"
    (fun _ => .pair (.bool true) (some "msg"))).1 true (some "msg") rfl

/-! ### Suffix arithmetic on column names -/

theorem string_data_inj (a b : String) (h : a.data = b.data) : a = b := by
  cases a; cases b; simp_all

theorem strEndsWith_append_two (x : String) (c1 c2 : Char) :
    strEndsWith (x ++ ⟨[c1, c2]⟩) ⟨[c1, c2]⟩ = true := by
  unfold strEndsWith
  rw [String.data_append]
  show subAt ([c1, c2].reverse) ((x.data ++ [c1, c2]).reverse) = true
  rw [List.reverse_append]
  simp [subAt]

theorem strEndsWith_append_a (x : String) : strEndsWith (x ++ "_a") "_a" = true := by
  rw [show ("_a" : String) = ⟨['_', 'a']⟩ from rfl]
  exact strEndsWith_append_two x '_' 'a'

theorem strEndsWith_append_b (x : String) : strEndsWith (x ++ "_b") "_b" = true := by
  rw [show ("_b" : String) = ⟨['_', 'b']⟩ from rfl]
  exact strEndsWith_append_two x '_' 'b'

theorem append_suffix_inj (x y s : String) (h : x ++ s = y ++ s) : x = y := by
  apply string_data_inj
  have hd : x.data ++ s.data = y.data ++ s.data := by
    rw [← String.data_append, ← String.data_append, h]
  exact List.append_cancel_right hd

theorem append_a_ne_append_b (x y : String) : x ++ "_a" ≠ y ++ "_b" := by
  intro h
  have hd := congrArg String.data h
  rw [String.data_append, String.data_append] at hd
  have h1 : (x.data ++ ("_a" : String).data).getLast? = some 'a' := by
    rw [show ("_a" : String).data = ['_'] ++ ['a'] from rfl, ← List.append_assoc]
    exact List.getLast?_concat _
  have h2 : (y.data ++ ("_b" : String).data).getLast? = some 'b' := by
    rw [show ("_b" : String).data = ['_'] ++ ['b'] from rfl, ← List.append_assoc]
    exact List.getLast?_concat _
  rw [hd, h2] at h1
  simp at h1

theorem dropLast2_append_two (x : String) (c1 c2 : Char) :
    dropLast2 (x ++ ⟨[c1, c2]⟩) = x := by
  apply string_data_inj
  show ((x.data ++ [c1, c2]).dropLast).dropLast = x.data
  rw [show x.data ++ [c1, c2] = (x.data ++ [c1]) ++ [c2] by simp]
  simp

theorem dropLast2_append_a (x : String) : dropLast2 (x ++ "_a") = x := by
  rw [show ("_a" : String) = ⟨['_', 'a']⟩ from rfl]
  exact dropLast2_append_two x '_' 'a'

theorem dropLast2_append_b (x : String) : dropLast2 (x ++ "_b") = x := by
  rw [show ("_b" : String) = ⟨['_', 'b']⟩ from rfl]
  exact dropLast2_append_two x '_' 'b'

theorem ne_append_a_of_no_suffix (n x : String)
    (h : strEndsWith n "_a" = false) : n ≠ x ++ "_a" := by
  intro he
  rw [he, strEndsWith_append_a] at h
  cases h

theorem ne_append_b_of_no_suffix (n x : String)
    (h : strEndsWith n "_b" = false) : n ≠ x ++ "_b" := by
  intro he
  rw [he, strEndsWith_append_b] at h
  cases h

/-! ### Membership in the merged schema -/

theorem suffixCol_name (keys other : List String) (suf : String) (c : ColInfo) :
    (suffixCol keys other suf c).name =
      if c.name ∉ keys ∧ c.name ∈ other then c.name ++ suf else c.name := by
  unfold suffixCol
  split <;> rfl

theorem mem_colNames_iff (s : List ColInfo) (n : String) :
    n ∈ colNames s ↔ ∃ c ∈ s, c.name = n := by
  simp [colNames, List.mem_map]

theorem mem_mergedSchema_names (a b : Table) (keys : List String) (n : String) :
    n ∈ colNames (mergedSchema a b keys) ↔
      ((∃ c ∈ a.schema, (suffixCol keys (colNames b.schema) "_a" c).name = n) ∨
       (∃ c ∈ b.schema, c.name ∉ keys ∧
         (suffixCol keys (colNames a.schema) "_b" c).name = n)) := by
  unfold mergedSchema
  rw [show colNames (a.schema.map (suffixCol keys (colNames b.schema) "_a") ++
      (b.schema.filter (fun c => decide (c.name ∉ keys))).map
        (suffixCol keys (colNames a.schema) "_b")) =
    colNames (a.schema.map (suffixCol keys (colNames b.schema) "_a")) ++
      colNames ((b.schema.filter (fun c => decide (c.name ∉ keys))).map
        (suffixCol keys (colNames a.schema) "_b")) by simp [colNames]]
  rw [List.mem_append, mem_colNames_iff, mem_colNames_iff]
  simp only [List.mem_map, List.mem_filter, decide_eq_true_eq]
  constructor
  · rintro (⟨c, ⟨c0, hc0, rfl⟩, hn⟩ | ⟨c, ⟨c0, ⟨hc0, hk⟩, rfl⟩, hn⟩)
    · exact Or.inl ⟨c0, hc0, hn⟩
    · exact Or.inr ⟨c0, hc0, hk, hn⟩
  · rintro (⟨c, hc, hn⟩ | ⟨c, hc, hk, hn⟩)
    · exact Or.inl ⟨_, ⟨c, hc, rfl⟩, hn⟩
    · exact Or.inr ⟨_, ⟨c, ⟨hc, hk⟩, rfl⟩, hn⟩

theorem key_mem_mergedSchema (a b : Table) (keys : List String) (k : String)
    (hk : k ∈ keys) (hka : k ∈ colNames a.schema) :
    k ∈ colNames (mergedSchema a b keys) := by
  rw [mem_mergedSchema_names]
  obtain ⟨c, hc, hcn⟩ := (mem_colNames_iff _ _).1 hka
  refine Or.inl ⟨c, hc, ?_⟩
  rw [suffixCol_name, if_neg, hcn]
  rw [hcn]
  intro h
  exact h.1 hk

theorem compared_mem_mergedSchema (a b : Table) (keys : List String) (column : String)
    (hcA : column ∈ colNames a.schema) (hcB : column ∈ colNames b.schema)
    (hck : column ∉ keys) :
    column ++ "_a" ∈ colNames (mergedSchema a b keys) ∧
    column ++ "_b" ∈ colNames (mergedSchema a b keys) := by
  constructor
  · rw [mem_mergedSchema_names]
    obtain ⟨c, hc, hcn⟩ := (mem_colNames_iff _ _).1 hcA
    refine Or.inl ⟨c, hc, ?_⟩
    rw [suffixCol_name, hcn, if_pos ⟨hck, hcB⟩]
  · rw [mem_mergedSchema_names]
    obtain ⟨c, hc, hcn⟩ := (mem_colNames_iff _ _).1 hcB
    refine Or.inr ⟨c, hc, by rw [hcn]; exact hck, ?_⟩
    rw [suffixCol_name, hcn, if_pos ⟨hck, hcA⟩]

theorem not_compared_not_mem_mergedSchema (a b : Table) (keys : List String)
    (column : String)
    (hnsA : ∀ c ∈ a.schema, strEndsWith c.name "_a" = false ∧
      strEndsWith c.name "_b" = false)
    (hnsB : ∀ c ∈ b.schema, strEndsWith c.name "_a" = false ∧
      strEndsWith c.name "_b" = false)
    (hnc : ¬(column ∈ colNames a.schema ∧ column ∈ colNames b.schema ∧
      column ∉ keys)) :
    column ++ "_a" ∉ colNames (mergedSchema a b keys) := by
  rw [mem_mergedSchema_names]
  rintro (⟨c, hc, hn⟩ | ⟨c, hc, hk, hn⟩)
  · rw [suffixCol_name] at hn
    by_cases hcond : c.name ∉ keys ∧ c.name ∈ colNames b.schema
    · rw [if_pos hcond] at hn
      have hceq : c.name = column := append_suffix_inj _ _ _ hn
      exact hnc ⟨(mem_colNames_iff _ _).2 ⟨c, hc, hceq⟩, hceq ▸ hcond.2,
        hceq ▸ hcond.1⟩
    · rw [if_neg hcond] at hn
      exact ne_append_a_of_no_suffix c.name column (hnsA c hc).1 hn
  · rw [suffixCol_name] at hn
    by_cases hcond : c.name ∉ keys ∧ c.name ∈ colNames a.schema
    · rw [if_pos hcond] at hn
      exact append_a_ne_append_b column c.name hn.symm
    · rw [if_neg hcond] at hn
      exact ne_append_a_of_no_suffix c.name column (hnsB c hc).1 hn

/-! ### selectCols -/

theorem selectCols_pos (t : Table) (names : List String)
    (h : ∀ n ∈ names, n ∈ colNames t.schema) :
    selectCols t names = some ⟨names.map (fun n => ⟨n, getFlag t.schema n⟩),
      t.rows.map (fun r => names.map (getVal t.schema r))⟩ := by
  unfold selectCols
  rw [if_pos]
  exact List.all_eq_true.2 (fun n hn => decide_eq_true (h n hn))

theorem selectCols_neg (t : Table) (names : List String) (n : String)
    (hn : n ∈ names) (h : n ∉ colNames t.schema) :
    selectCols t names = none := by
  unfold selectCols
  rw [if_neg]
  intro hall
  exact h (of_decide_eq_true (List.all_eq_true.1 hall n hn))

/-! ### C5: the `changed` projection -/

/-- C5: `changed(column)` projects `mismatches` onto the key columns and
the two suffixed variants of `column` when `column` was part of the
comparison (present on both sides and not a key), and fails with the
pandas `KeyError` (modelled as `none`) when it was not. -/
theorem changed_projection (df_a df_b : Table) (keys : List String)
    (abs_tol rel_tol : ℚ) (column : String)
    (hkA : ∀ k ∈ keys, k ∈ colNames df_a.schema)
    (hnsA : ∀ c ∈ df_a.schema, strEndsWith c.name "_a" = false ∧
      strEndsWith c.name "_b" = false)
    (hnsB : ∀ c ∈ df_b.schema, strEndsWith c.name "_a" = false ∧
      strEndsWith c.name "_b" = false) :
    ((column ∈ colNames df_a.schema ∧ column ∈ colNames df_b.schema ∧
        column ∉ keys) →
      (Delta.make df_a df_b keys abs_tol rel_tol).changed column =
        some ⟨(keys ++ [column ++ "_a", column ++ "_b"]).map
            (fun n => ⟨n, getFlag
              (Delta.make df_a df_b keys abs_tol rel_tol).mismatches.schema n⟩),
          (Delta.make df_a df_b keys abs_tol rel_tol).mismatches.rows.map
            (fun r => (keys ++ [column ++ "_a", column ++ "_b"]).map
              (getVal
                (Delta.make df_a df_b keys abs_tol rel_tol).mismatches.schema r))⟩) ∧
    (¬(column ∈ colNames df_a.schema ∧ column ∈ colNames df_b.schema ∧
        column ∉ keys) →
      (Delta.make df_a df_b keys abs_tol rel_tol).changed column = none) := by
  constructor
  · rintro ⟨hcA, hcB, hck⟩
    show selectCols (Delta.make df_a df_b keys abs_tol rel_tol).mismatches
      (keys ++ [column ++ "_a", column ++ "_b"]) = _
    apply selectCols_pos
    intro n hn
    rcases List.mem_append.1 hn with hkm | hsuf
    · exact key_mem_mergedSchema (trim_whitespace df_a) (trim_whitespace df_b)
        keys n hkm (hkA n hkm)
    · have hcmp := compared_mem_mergedSchema (trim_whitespace df_a)
        (trim_whitespace df_b) keys column hcA hcB hck
      rcases List.mem_cons.1 hsuf with h | h
      · rw [h]; exact hcmp.1
      · rw [List.mem_singleton.1 h]; exact hcmp.2
  · intro hnc
    show selectCols (Delta.make df_a df_b keys abs_tol rel_tol).mismatches
      (keys ++ [column ++ "_a", column ++ "_b"]) = none
    apply selectCols_neg _ _ (column ++ "_a") (by simp)
    exact not_compared_not_mem_mergedSchema (trim_whitespace df_a)
      (trim_whitespace df_b) keys column hnsA hnsB hnc

/-! ### getVal over the merged row shapes -/

theorem getVal_cons (c : ColInfo) (s : List ColInfo) (v : Val) (r : List Val)
    (n : String) :
    getVal (c :: s) (v :: r) n = if c.name = n then v else getVal s r n := rfl

theorem getVal_append (s1 s2 : List ColInfo) (r1 r2 : List Val) (n : String)
    (hlen : r1.length = s1.length) :
    getVal (s1 ++ s2) (r1 ++ r2) n =
      if n ∈ colNames s1 then getVal s1 r1 n else getVal s2 r2 n := by
  induction s1 generalizing r1 with
  | nil =>
      cases r1 with
      | nil => simp [colNames]
      | cons a as => simp at hlen
  | cons c cs ih =>
      cases r1 with
      | nil => simp at hlen
      | cons v vs =>
          simp only [List.cons_append, getVal_cons]
          by_cases hn : c.name = n
          · simp [hn, colNames]
          · rw [if_neg hn, ih vs (by simpa using hlen)]
            by_cases hm : n ∈ colNames cs
            · rw [if_pos hm,
                if_pos (show n ∈ colNames (c :: cs) from List.mem_cons_of_mem _ hm),
                if_neg hn]
            · rw [if_neg hm, if_neg (show n ∉ colNames (c :: cs) from fun h => by
                rcases List.mem_cons.1 h with h1 | h1
                · exact hn h1.symm
                · exact hm h1)]

theorem getVal_map_suffix (keys other : List String) (suf : String)
    (s : List ColInfo) (r : List Val) (k : String) (hk : k ∈ keys)
    (hns : ∀ c ∈ s, c.name ++ suf ≠ k) :
    getVal (s.map (suffixCol keys other suf)) r k = getVal s r k := by
  induction s generalizing r with
  | nil => rfl
  | cons c cs ih =>
      cases r with
      | nil => rfl
      | cons v vs =>
          rw [List.map_cons, getVal_cons, getVal_cons, suffixCol_name]
          by_cases hcond : c.name ∉ keys ∧ c.name ∈ other
          · rw [if_pos hcond]
            have hck : c.name ≠ k := fun h => hcond.1 (h ▸ hk)
            rw [if_neg (hns c (List.mem_cons_self c cs)), if_neg hck]
            exact ih vs (fun d hd => hns d (List.mem_cons_of_mem c hd))
          · rw [if_neg hcond]
            by_cases hcn : c.name = k
            · rw [if_pos hcn, if_pos hcn]
            · rw [if_neg hcn, if_neg hcn]
              exact ih vs (fun d hd => hns d (List.mem_cons_of_mem c hd))

theorem getVal_map_rightRow (keys other : List String) (bs : List ColInfo)
    (rb : List Val) (s : List ColInfo) (k : String) (hk : k ∈ keys)
    (hks : k ∈ colNames s) (hns : ∀ c ∈ s, c.name ++ "_a" ≠ k) :
    getVal (s.map (suffixCol keys other "_a"))
      (s.map (fun c => if c.name ∈ keys then getVal bs rb c.name else Val.null)) k
      = getVal bs rb k := by
  induction s with
  | nil => simp [colNames] at hks
  | cons c cs ih =>
      rw [List.map_cons, List.map_cons, getVal_cons, suffixCol_name]
      by_cases hcond : c.name ∉ keys ∧ c.name ∈ other
      · rw [if_pos hcond]
        have hck : c.name ≠ k := fun h => hcond.1 (h ▸ hk)
        rw [if_neg (hns c (List.mem_cons_self c cs))]
        refine ih ?_ (fun d hd => hns d (List.mem_cons_of_mem c hd))
        rcases (mem_colNames_iff _ _).1 hks with ⟨d, hd, hdn⟩
        rcases List.mem_cons.1 hd with h | h
        · exact absurd (h ▸ hdn) hck
        · exact (mem_colNames_iff _ _).2 ⟨d, h, hdn⟩
      · rw [if_neg hcond]
        by_cases hcn : c.name = k
        · rw [if_pos hcn, if_pos (hcn ▸ hk), hcn]
        · rw [if_neg hcn]
          refine ih ?_ (fun d hd => hns d (List.mem_cons_of_mem c hd))
          rcases (mem_colNames_iff _ _).1 hks with ⟨d, hd, hdn⟩
          rcases List.mem_cons.1 hd with h | h
          · exact absurd (h ▸ hdn) hcn
          · exact (mem_colNames_iff _ _).2 ⟨d, h, hdn⟩

theorem key_mem_map_suffix (keys other : List String) (suf : String)
    (s : List ColInfo) (k : String) (hk : k ∈ keys) (hks : k ∈ colNames s) :
    k ∈ colNames (s.map (suffixCol keys other suf)) := by
  obtain ⟨c, hc, hcn⟩ := (mem_colNames_iff _ _).1 hks
  apply (mem_colNames_iff _ _).2
  refine ⟨suffixCol keys other suf c, List.mem_map_of_mem _ hc, ?_⟩
  rw [suffixCol_name, hcn, if_neg (fun h => h.1 hk)]

/-! ### Membership in the merged rows, by indicator -/

theorem mem_mergedRows_left (a b : Table) (keys : List String) (r : List Val) :
    (r, MergeTag.left_only) ∈ mergedRows a b keys ↔
      ∃ ra ∈ a.rows, r = leftOnlyRow keys b.schema ra ∧
        ¬∃ rb ∈ b.rows, keyVals b.schema keys rb = keyVals a.schema keys ra := by
  unfold mergedRows
  rw [List.mem_append]
  constructor
  · rintro (h | h)
    · rw [List.mem_flatMap] at h
      obtain ⟨ra, hra, hmem⟩ := h
      dsimp only at hmem
      refine ⟨ra, hra, ?_⟩
      by_cases hms : (b.rows.filter fun rb =>
          decide (keyVals b.schema keys rb = keyVals a.schema keys ra)).isEmpty
      · rw [if_pos hms] at hmem
        simp only [List.mem_singleton, Prod.mk.injEq] at hmem
        refine ⟨hmem.1, ?_⟩
        rw [List.isEmpty_iff, List.filter_eq_nil_iff] at hms
        rintro ⟨rb, hrb, hkeq⟩
        exact hms rb hrb (by simpa using hkeq)
      · rw [if_neg hms] at hmem
        obtain ⟨rb, _, heq⟩ := List.mem_map.1 hmem
        simp at heq
    · obtain ⟨rb, _, heq⟩ := List.mem_map.1 h
      simp at heq
  · rintro ⟨ra, hra, hr, hnm⟩
    left
    rw [List.mem_flatMap]
    refine ⟨ra, hra, ?_⟩
    dsimp only
    have hms : (b.rows.filter fun rb =>
        decide (keyVals b.schema keys rb = keyVals a.schema keys ra)).isEmpty = true := by
      rw [List.isEmpty_iff, List.filter_eq_nil_iff]
      intro rb hrb
      simp only [decide_eq_true_eq]
      exact fun hkeq => hnm ⟨rb, hrb, hkeq⟩
    rw [if_pos hms, hr]
    exact List.mem_singleton.2 rfl

theorem mem_mergedRows_both (a b : Table) (keys : List String) (r : List Val) :
    (r, MergeTag.both) ∈ mergedRows a b keys ↔
      ∃ ra ∈ a.rows, ∃ rb ∈ b.rows,
        keyVals b.schema keys rb = keyVals a.schema keys ra ∧
        r = bothRow keys b.schema ra rb := by
  unfold mergedRows
  rw [List.mem_append]
  constructor
  · rintro (h | h)
    · rw [List.mem_flatMap] at h
      obtain ⟨ra, hra, hmem⟩ := h
      dsimp only at hmem
      by_cases hms : (b.rows.filter fun rb =>
          decide (keyVals b.schema keys rb = keyVals a.schema keys ra)).isEmpty
      · rw [if_pos hms] at hmem
        simp at hmem
      · rw [if_neg hms] at hmem
        obtain ⟨rb, hrb, heq⟩ := List.mem_map.1 hmem
        obtain ⟨hrb1, hrb2⟩ := List.mem_filter.1 hrb
        simp only [Prod.mk.injEq] at heq
        exact ⟨ra, hra, rb, hrb1, by simpa using hrb2, heq.1.symm⟩
    · obtain ⟨rb, _, heq⟩ := List.mem_map.1 h
      simp at heq
  · rintro ⟨ra, hra, rb, hrb, hkeq, hr⟩
    left
    rw [List.mem_flatMap]
    refine ⟨ra, hra, ?_⟩
    dsimp only
    have hne : (b.rows.filter fun x =>
        decide (keyVals b.schema keys x = keyVals a.schema keys ra)).isEmpty = false := by
      have : rb ∈ b.rows.filter fun x =>
          decide (keyVals b.schema keys x = keyVals a.schema keys ra) :=
        List.mem_filter.2 ⟨hrb, decide_eq_true hkeq⟩
      cases hf : (b.rows.filter fun x =>
          decide (keyVals b.schema keys x = keyVals a.schema keys ra)) with
      | nil => rw [hf] at this; simp at this
      | cons => rfl
    rw [if_neg (by rw [hne]; exact fun h => Bool.noConfusion h)]
    apply List.mem_map.2
    exact ⟨rb, List.mem_filter.2 ⟨hrb, decide_eq_true hkeq⟩, by rw [hr]⟩

theorem mem_mergedRows_right (a b : Table) (keys : List String) (r : List Val) :
    (r, MergeTag.right_only) ∈ mergedRows a b keys ↔
      ∃ rb ∈ b.rows, r = rightOnlyRow a.schema b.schema keys rb ∧
        ¬∃ ra ∈ a.rows, keyVals a.schema keys ra = keyVals b.schema keys rb := by
  unfold mergedRows
  rw [List.mem_append]
  constructor
  · rintro (h | h)
    · rw [List.mem_flatMap] at h
      obtain ⟨ra, hra, hmem⟩ := h
      dsimp only at hmem
      by_cases hms : (b.rows.filter fun rb =>
          decide (keyVals b.schema keys rb = keyVals a.schema keys ra)).isEmpty
      · rw [if_pos hms] at hmem
        simp at hmem
      · rw [if_neg hms] at hmem
        obtain ⟨rb, _, heq⟩ := List.mem_map.1 hmem
        simp at heq
    · obtain ⟨rb, hrb, heq⟩ := List.mem_map.1 h
      obtain ⟨hrb1, hrb2⟩ := List.mem_filter.1 hrb
      simp only [Prod.mk.injEq] at heq
      refine ⟨rb, hrb1, heq.1.symm, ?_⟩
      simp only [Bool.not_eq_true', List.any_eq_false, decide_eq_true_eq] at hrb2
      rintro ⟨ra, hra, hkeq⟩
      exact hrb2 ra hra hkeq
  · rintro ⟨rb, hrb, hr, hnm⟩
    right
    apply List.mem_map.2
    refine ⟨rb, List.mem_filter.2 ⟨hrb, ?_⟩, by rw [hr]⟩
    simp only [Bool.not_eq_true', List.any_eq_false, decide_eq_true_eq]
    intro ra hra hkeq
    exact hnm ⟨ra, hra, hkeq⟩

theorem trimRow_length (s : List ColInfo) (r : List Val) :
    (trimRow s r).length = r.length := by
  induction s generalizing r with
  | nil => cases r <;> rfl
  | cons c cs ih =>
      cases r with
      | nil => rfl
      | cons v vs => simp [trimRow, ih]

/-! ### Key extraction from the merged row shapes -/

theorem keyVals_left_ext (a b : Table) (keys : List String) (ra tail : List Val)
    (hlen : ra.length = a.schema.length)
    (hka : ∀ k ∈ keys, k ∈ colNames a.schema)
    (hns : ∀ k ∈ keys, ∀ c ∈ a.schema, c.name ++ "_a" ≠ k) :
    keyVals (mergedSchema a b keys) keys (ra ++ tail) = keyVals a.schema keys ra := by
  unfold keyVals
  apply List.map_congr_left
  intro k hk
  unfold mergedSchema
  rw [getVal_append _ _ _ _ _ (by simpa using hlen)]
  rw [if_pos (key_mem_map_suffix keys (colNames b.schema) "_a" a.schema k hk
    (hka k hk))]
  exact getVal_map_suffix keys (colNames b.schema) "_a" a.schema ra k hk (hns k hk)

theorem keyVals_leftOnlyRow (a b : Table) (keys : List String) (ra : List Val)
    (hlen : ra.length = a.schema.length)
    (hka : ∀ k ∈ keys, k ∈ colNames a.schema)
    (hns : ∀ k ∈ keys, ∀ c ∈ a.schema, c.name ++ "_a" ≠ k) :
    keyVals (mergedSchema a b keys) keys (leftOnlyRow keys b.schema ra) =
      keyVals a.schema keys ra := by
  unfold leftOnlyRow
  exact keyVals_left_ext a b keys ra _ hlen hka hns

theorem keyVals_bothRow (a b : Table) (keys : List String) (ra rb : List Val)
    (hlen : ra.length = a.schema.length)
    (hka : ∀ k ∈ keys, k ∈ colNames a.schema)
    (hns : ∀ k ∈ keys, ∀ c ∈ a.schema, c.name ++ "_a" ≠ k) :
    keyVals (mergedSchema a b keys) keys (bothRow keys b.schema ra rb) =
      keyVals a.schema keys ra := by
  unfold bothRow
  exact keyVals_left_ext a b keys ra _ hlen hka hns

theorem keyVals_rightOnlyRow (a b : Table) (keys : List String) (rb : List Val)
    (hka : ∀ k ∈ keys, k ∈ colNames a.schema)
    (hns : ∀ k ∈ keys, ∀ c ∈ a.schema, c.name ++ "_a" ≠ k) :
    keyVals (mergedSchema a b keys) keys (rightOnlyRow a.schema b.schema keys rb) =
      keyVals b.schema keys rb := by
  unfold keyVals
  apply List.map_congr_left
  intro k hk
  unfold mergedSchema rightOnlyRow
  rw [getVal_append _ _ _ _ _ (by simp)]
  rw [if_pos (key_mem_map_suffix keys (colNames b.schema) "_a" a.schema k hk
    (hka k hk))]
  exact getVal_map_rightRow keys (colNames b.schema) b.schema rb a.schema k hk
    (hka k hk) (hns k hk)

/-! ### Suffix-map lemmas for arbitrary column names -/

theorem getVal_nil_row (s : List ColInfo) (n : String) : getVal s [] n = Val.null := by
  cases s <;> rfl

theorem getVal_nil_schema (r : List Val) (n : String) :
    getVal [] r n = Val.null := by
  cases r <;> rfl

theorem getVal_not_mem (s : List ColInfo) (r : List Val) (n : String)
    (h : n ∉ colNames s) : getVal s r n = Val.null := by
  induction s generalizing r with
  | nil => cases r <;> rfl
  | cons c cs ih =>
      cases r with
      | nil => rfl
      | cons v vs =>
          rw [getVal_cons, if_neg (fun he => h ((mem_colNames_iff _ _).2
            ⟨c, List.mem_cons_self c cs, he⟩))]
          exact ih vs (fun hm => h (by
            obtain ⟨d, hd, hdn⟩ := (mem_colNames_iff _ _).1 hm
            exact (mem_colNames_iff _ _).2 ⟨d, List.mem_cons_of_mem c hd, hdn⟩))

theorem getVal_null_row (s : List ColInfo) (r : List Val) (n : String)
    (h : ∀ v ∈ r, v = Val.null) : getVal s r n = Val.null := by
  induction s generalizing r with
  | nil => cases r <;> rfl
  | cons c cs ih =>
      cases r with
      | nil => rfl
      | cons v vs =>
          rw [getVal_cons]
          by_cases hc : c.name = n
          · rw [if_pos hc]
            exact h v (List.mem_cons_self v vs)
          · rw [if_neg hc]
            exact ih vs (fun w hw => h w (List.mem_cons_of_mem v hw))

theorem mem_map_suffix_keep (keys other : List String) (suf : String)
    (s : List ColInfo) (n : String) (hks : n ∈ colNames s)
    (hkeep : ¬(n ∉ keys ∧ n ∈ other)) :
    n ∈ colNames (s.map (suffixCol keys other suf)) := by
  obtain ⟨c, hc, hcn⟩ := (mem_colNames_iff _ _).1 hks
  apply (mem_colNames_iff _ _).2
  refine ⟨suffixCol keys other suf c, List.mem_map_of_mem _ hc, ?_⟩
  rw [suffixCol_name, hcn, if_neg hkeep]

theorem not_mem_map_suffix_plain (keys other : List String) (suf : String)
    (s : List ColInfo) (n : String) (hns : n ∉ colNames s)
    (hshape : ∀ c ∈ s, c.name ++ suf ≠ n) :
    n ∉ colNames (s.map (suffixCol keys other suf)) := by
  intro hmem
  obtain ⟨c0, hc0, hcn⟩ := (mem_colNames_iff _ _).1 hmem
  obtain ⟨c, hc, hmap⟩ := List.mem_map.1 hc0
  subst hmap
  rw [suffixCol_name] at hcn
  by_cases hcond : c.name ∉ keys ∧ c.name ∈ other
  · rw [if_pos hcond] at hcn
    exact hshape c hc hcn
  · rw [if_neg hcond] at hcn
    exact hns ((mem_colNames_iff _ _).2 ⟨c, hc, hcn⟩)

theorem not_mem_map_suffix_of_cond (keys other : List String) (suf : String)
    (s : List ColInfo) (n : String) (hcond : n ∉ keys ∧ n ∈ other)
    (hshape : ∀ c ∈ s, c.name ++ suf ≠ n) :
    n ∉ colNames (s.map (suffixCol keys other suf)) := by
  intro hmem
  obtain ⟨c0, hc0, hcn⟩ := (mem_colNames_iff _ _).1 hmem
  obtain ⟨c, hc, hmap⟩ := List.mem_map.1 hc0
  subst hmap
  rw [suffixCol_name] at hcn
  by_cases hc2 : c.name ∉ keys ∧ c.name ∈ other
  · rw [if_pos hc2] at hcn
    exact hshape c hc hcn
  · rw [if_neg hc2] at hcn
    exact hc2 (hcn ▸ hcond)

theorem mem_map_suffix_append_iff (keys other : List String) (suf : String)
    (s : List ColInfo) (x : String)
    (hcap : ∀ c ∈ s, c.name ≠ x ++ suf) :
    (x ++ suf ∈ colNames (s.map (suffixCol keys other suf))) ↔
      (x ∈ colNames s ∧ x ∉ keys ∧ x ∈ other) := by
  constructor
  · intro hmem
    obtain ⟨c0, hc0, hcn⟩ := (mem_colNames_iff _ _).1 hmem
    obtain ⟨c, hc, hmap⟩ := List.mem_map.1 hc0
    subst hmap
    rw [suffixCol_name] at hcn
    by_cases hc2 : c.name ∉ keys ∧ c.name ∈ other
    · rw [if_pos hc2] at hcn
      have hcx : c.name = x := append_suffix_inj _ _ _ hcn
      exact ⟨(mem_colNames_iff _ _).2 ⟨c, hc, hcx⟩, hcx ▸ hc2.1, hcx ▸ hc2.2⟩
    · rw [if_neg hc2] at hcn
      exact absurd hcn (hcap c hc)
  · rintro ⟨hx, hxk, hxo⟩
    obtain ⟨c, hc, hcn⟩ := (mem_colNames_iff _ _).1 hx
    apply (mem_colNames_iff _ _).2
    refine ⟨suffixCol keys other suf c, List.mem_map_of_mem _ hc, ?_⟩
    rw [suffixCol_name, hcn, if_pos ⟨hxk, hxo⟩]

theorem getVal_map_suffix_keep (keys other : List String) (suf : String)
    (s : List ColInfo) (r : List Val) (n : String)
    (hkeep : ∀ c ∈ s, c.name = n → ¬(c.name ∉ keys ∧ c.name ∈ other))
    (hns : ∀ c ∈ s, c.name ++ suf ≠ n) :
    getVal (s.map (suffixCol keys other suf)) r n = getVal s r n := by
  induction s generalizing r with
  | nil => rfl
  | cons c cs ih =>
      cases r with
      | nil => rfl
      | cons v vs =>
          rw [List.map_cons, getVal_cons, getVal_cons, suffixCol_name]
          by_cases hcond : c.name ∉ keys ∧ c.name ∈ other
          · rw [if_pos hcond]
            have hck : c.name ≠ n := fun h =>
              hkeep c (List.mem_cons_self c cs) h hcond
            rw [if_neg (hns c (List.mem_cons_self c cs)), if_neg hck]
            exact ih vs (fun d hd => hkeep d (List.mem_cons_of_mem c hd))
              (fun d hd => hns d (List.mem_cons_of_mem c hd))
          · rw [if_neg hcond]
            by_cases hcn : c.name = n
            · rw [if_pos hcn, if_pos hcn]
            · rw [if_neg hcn, if_neg hcn]
              exact ih vs (fun d hd => hkeep d (List.mem_cons_of_mem c hd))
                (fun d hd => hns d (List.mem_cons_of_mem c hd))

theorem getVal_map_suffix_renamed (keys other : List String) (suf : String)
    (s : List ColInfo) (r : List Val) (x : String)
    (hxk : x ∉ keys) (hxo : x ∈ other)
    (hcap : ∀ c ∈ s, c.name ≠ x ++ suf) :
    getVal (s.map (suffixCol keys other suf)) r (x ++ suf) = getVal s r x := by
  induction s generalizing r with
  | nil => rfl
  | cons c cs ih =>
      cases r with
      | nil => rfl
      | cons v vs =>
          rw [List.map_cons, getVal_cons, getVal_cons, suffixCol_name]
          by_cases hcx : c.name = x
          · have h1 : c.name ∉ keys ∧ c.name ∈ other := by
              rw [hcx]; exact ⟨hxk, hxo⟩
            rw [if_pos h1, if_pos (show c.name ++ suf = x ++ suf by rw [hcx]),
              if_pos hcx]
          · by_cases hcond : c.name ∉ keys ∧ c.name ∈ other
            · rw [if_pos hcond,
                if_neg (fun h => hcx (append_suffix_inj _ _ _ h)), if_neg hcx]
              exact ih vs (fun d hd => hcap d (List.mem_cons_of_mem c hd))
            · rw [if_neg hcond, if_neg (hcap c (List.mem_cons_self c cs)),
                if_neg hcx]
              exact ih vs (fun d hd => hcap d (List.mem_cons_of_mem c hd))

theorem getVal_rightRowFill_plain (keys other : List String) (suf : String)
    (bs : List ColInfo) (rb : List Val) (s : List ColInfo) (n : String)
    (hnk : n ∉ keys) (hcap : ∀ c ∈ s, c.name ++ suf ≠ n) :
    getVal (s.map (suffixCol keys other suf))
      (s.map (fun c => if c.name ∈ keys then getVal bs rb c.name else Val.null)) n
      = Val.null := by
  induction s with
  | nil => rfl
  | cons c cs ih =>
      rw [List.map_cons, List.map_cons, getVal_cons, suffixCol_name]
      by_cases hcond : c.name ∉ keys ∧ c.name ∈ other
      · rw [if_pos hcond, if_neg (hcap c (List.mem_cons_self c cs))]
        exact ih (fun d hd => hcap d (List.mem_cons_of_mem c hd))
      · rw [if_neg hcond]
        by_cases hcn : c.name = n
        · rw [if_pos hcn, if_neg (by rw [hcn]; exact hnk)]
        · rw [if_neg hcn]
          exact ih (fun d hd => hcap d (List.mem_cons_of_mem c hd))

theorem getVal_rightRowFill_append (keys other : List String) (suf : String)
    (bs : List ColInfo) (rb : List Val) (s : List ColInfo) (x : String)
    (hcap : ∀ c ∈ s, c.name ≠ x ++ suf) :
    getVal (s.map (suffixCol keys other suf))
      (s.map (fun c => if c.name ∈ keys then getVal bs rb c.name else Val.null))
      (x ++ suf) = Val.null := by
  induction s with
  | nil => rfl
  | cons c cs ih =>
      rw [List.map_cons, List.map_cons, getVal_cons, suffixCol_name]
      by_cases hcond : c.name ∉ keys ∧ c.name ∈ other
      · rw [if_pos hcond]
        by_cases hcx : c.name = x
        · rw [if_pos (show c.name ++ suf = x ++ suf by rw [hcx]),
            if_neg (show c.name ∉ keys from hcond.1)]
        · rw [if_neg (fun h => hcx (append_suffix_inj _ _ _ h))]
          exact ih (fun d hd => hcap d (List.mem_cons_of_mem c hd))
      · rw [if_neg hcond, if_neg (hcap c (List.mem_cons_self c cs))]
        exact ih (fun d hd => hcap d (List.mem_cons_of_mem c hd))

theorem getVal_dropKey_suffix_plain (keys other : List String) (suf : String)
    (s : List ColInfo) (r : List Val) (n : String)
    (hnk : n ∉ keys) (hno : n ∉ other)
    (hshape : ∀ c ∈ s, c.name ++ suf ≠ n) :
    getVal ((s.filter (fun c => decide (c.name ∉ keys))).map (suffixCol keys other suf))
      (dropKeyCols keys s r) n = getVal s r n := by
  induction s generalizing r with
  | nil => cases r <;> rfl
  | cons c cs ih =>
      cases r with
      | nil =>
          rw [show dropKeyCols keys (c :: cs) [] = [] from rfl, getVal_nil_row,
            getVal_nil_row]
      | cons v vs =>
          by_cases hck : c.name ∈ keys
          · rw [show dropKeyCols keys (c :: cs) (v :: vs) = dropKeyCols keys cs vs by
              simp [dropKeyCols, hck]]
            rw [show (c :: cs).filter (fun c => decide (c.name ∉ keys)) =
              cs.filter (fun c => decide (c.name ∉ keys)) by simp [hck]]
            rw [getVal_cons, if_neg (show c.name ≠ n by
              intro h; rw [h] at hck; exact hnk hck)]
            exact ih vs (fun d hd => hshape d (List.mem_cons_of_mem c hd))
          · rw [show dropKeyCols keys (c :: cs) (v :: vs) =
              v :: dropKeyCols keys cs vs by simp [dropKeyCols, hck]]
            rw [show (c :: cs).filter (fun c => decide (c.name ∉ keys)) =
              c :: cs.filter (fun c => decide (c.name ∉ keys)) by simp [hck]]
            rw [List.map_cons, getVal_cons, getVal_cons, suffixCol_name]
            by_cases hcond : c.name ∉ keys ∧ c.name ∈ other
            · have hcn : c.name ≠ n := fun h => hno (h ▸ hcond.2)
              rw [if_pos hcond, if_neg (hshape c (List.mem_cons_self c cs)),
                if_neg hcn]
              exact ih vs (fun d hd => hshape d (List.mem_cons_of_mem c hd))
            · rw [if_neg hcond]
              by_cases hcn : c.name = n
              · rw [if_pos hcn, if_pos hcn]
              · rw [if_neg hcn, if_neg hcn]
                exact ih vs (fun d hd => hshape d (List.mem_cons_of_mem c hd))

theorem getVal_dropKey_suffix_cond_null (keys other : List String) (suf : String)
    (s : List ColInfo) (r : List Val) (n : String)
    (hcond : n ∉ keys ∧ n ∈ other)
    (hshape : ∀ c ∈ s, c.name ++ suf ≠ n) :
    getVal ((s.filter (fun c => decide (c.name ∉ keys))).map (suffixCol keys other suf))
      (dropKeyCols keys s r) n = Val.null := by
  induction s generalizing r with
  | nil => cases r <;> rfl
  | cons c cs ih =>
      cases r with
      | nil =>
          rw [show dropKeyCols keys (c :: cs) [] = [] from rfl, getVal_nil_row]
      | cons v vs =>
          by_cases hck : c.name ∈ keys
          · rw [show dropKeyCols keys (c :: cs) (v :: vs) = dropKeyCols keys cs vs by
              simp [dropKeyCols, hck]]
            rw [show (c :: cs).filter (fun c => decide (c.name ∉ keys)) =
              cs.filter (fun c => decide (c.name ∉ keys)) by simp [hck]]
            exact ih vs (fun d hd => hshape d (List.mem_cons_of_mem c hd))
          · rw [show dropKeyCols keys (c :: cs) (v :: vs) =
              v :: dropKeyCols keys cs vs by simp [dropKeyCols, hck]]
            rw [show (c :: cs).filter (fun c => decide (c.name ∉ keys)) =
              c :: cs.filter (fun c => decide (c.name ∉ keys)) by simp [hck]]
            rw [List.map_cons, getVal_cons, suffixCol_name]
            by_cases hc2 : c.name ∉ keys ∧ c.name ∈ other
            · rw [if_pos hc2, if_neg (hshape c (List.mem_cons_self c cs))]
              exact ih vs (fun d hd => hshape d (List.mem_cons_of_mem c hd))
            · have hcn : c.name ≠ n := fun h => hc2 (h ▸ hcond)
              rw [if_neg hc2, if_neg hcn]
              exact ih vs (fun d hd => hshape d (List.mem_cons_of_mem c hd))

theorem getVal_dropKey_suffix_append (keys other : List String) (suf : String)
    (s : List ColInfo) (r : List Val) (x : String)
    (hcap : ∀ c ∈ s, c.name ≠ x ++ suf) :
    getVal ((s.filter (fun c => decide (c.name ∉ keys))).map (suffixCol keys other suf))
      (dropKeyCols keys s r) (x ++ suf) =
      if x ∉ keys ∧ x ∈ other then getVal s r x else Val.null := by
  induction s generalizing r with
  | nil =>
      rw [show dropKeyCols keys ([] : List ColInfo) r = [] from by cases r <;> rfl,
        getVal_nil_row, getVal_nil_schema, ite_self]
  | cons c cs ih =>
      cases r with
      | nil =>
          rw [show dropKeyCols keys (c :: cs) [] = [] from rfl, getVal_nil_row,
            getVal_nil_row]
          simp
      | cons v vs =>
          by_cases hck : c.name ∈ keys
          · rw [show dropKeyCols keys (c :: cs) (v :: vs) = dropKeyCols keys cs vs by
              simp [dropKeyCols, hck]]
            rw [show (c :: cs).filter (fun c => decide (c.name ∉ keys)) =
              cs.filter (fun c => decide (c.name ∉ keys)) by simp [hck]]
            rw [ih vs (fun d hd => hcap d (List.mem_cons_of_mem c hd))]
            by_cases hc0 : x ∉ keys ∧ x ∈ other
            · rw [if_pos hc0, if_pos hc0, getVal_cons,
                if_neg (show c.name ≠ x by
                  intro h; rw [h] at hck; exact hc0.1 hck)]
            · rw [if_neg hc0, if_neg hc0]
          · rw [show dropKeyCols keys (c :: cs) (v :: vs) =
              v :: dropKeyCols keys cs vs by simp [dropKeyCols, hck]]
            rw [show (c :: cs).filter (fun c => decide (c.name ∉ keys)) =
              c :: cs.filter (fun c => decide (c.name ∉ keys)) by simp [hck]]
            rw [List.map_cons, getVal_cons, suffixCol_name]
            by_cases hcond : c.name ∉ keys ∧ c.name ∈ other
            · rw [if_pos hcond]
              by_cases hcx : c.name = x
              · rw [if_pos (by rw [hcx])]
                rw [if_pos (show x ∉ keys ∧ x ∈ other from hcx ▸ hcond),
                  getVal_cons, if_pos hcx]
              · rw [if_neg (fun h => hcx (append_suffix_inj _ _ _ h))]
                rw [ih vs (fun d hd => hcap d (List.mem_cons_of_mem c hd))]
                by_cases hc0 : x ∉ keys ∧ x ∈ other
                · rw [if_pos hc0, if_pos hc0, getVal_cons, if_neg hcx]
                · rw [if_neg hc0, if_neg hc0]
            · rw [if_neg hcond, if_neg (hcap c (List.mem_cons_self c cs))]
              rw [ih vs (fun d hd => hcap d (List.mem_cons_of_mem c hd))]
              by_cases hc0 : x ∉ keys ∧ x ∈ other
              · have hcx : c.name ≠ x := by
                  intro h
                  exact hcond (h ▸ hc0)
                rw [if_pos hc0, if_pos hc0, getVal_cons, if_neg hcx]
              · rw [if_neg hc0, if_neg hc0]

/-! ### Decomposing suffixed names and the suffix swap -/

theorem subAt_two_eq (c1 c2 : Char) (l : List Char) (h : subAt [c1, c2] l = true) :
    ∃ rest, l = c1 :: c2 :: rest := by
  match l with
  | [] => simp [subAt] at h
  | [a] => simp [subAt] at h
  | a :: b :: rest =>
      refine ⟨rest, ?_⟩
      simp only [subAt, Bool.and_eq_true, beq_iff_eq] at h
      rw [h.1, h.2.1]

theorem endsWith_a_decomp (n : String) (h : strEndsWith n "_a" = true) :
    n = dropLast2 n ++ "_a" := by
  unfold strEndsWith at h
  rw [show ("_a" : String).data.reverse = ['a', '_'] from rfl] at h
  obtain ⟨rest, hrest⟩ := subAt_two_eq 'a' '_' n.data.reverse h
  have hdata : n.data = rest.reverse ++ ['_', 'a'] := by
    have h2 := congrArg List.reverse hrest
    rw [List.reverse_reverse] at h2
    rw [h2]
    simp
  apply string_data_inj
  rw [String.data_append, show ("_a" : String).data = ['_', 'a'] from rfl]
  show n.data = (n.data.dropLast.dropLast) ++ ['_', 'a']
  rw [hdata,
    show rest.reverse ++ ['_', 'a'] = (rest.reverse ++ ['_']) ++ ['a'] by simp]
  simp

theorem endsWith_b_decomp (n : String) (h : strEndsWith n "_b" = true) :
    n = dropLast2 n ++ "_b" := by
  unfold strEndsWith at h
  rw [show ("_b" : String).data.reverse = ['b', '_'] from rfl] at h
  obtain ⟨rest, hrest⟩ := subAt_two_eq 'b' '_' n.data.reverse h
  have hdata : n.data = rest.reverse ++ ['_', 'b'] := by
    have h2 := congrArg List.reverse hrest
    rw [List.reverse_reverse] at h2
    rw [h2]
    simp
  apply string_data_inj
  rw [String.data_append, show ("_b" : String).data = ['_', 'b'] from rfl]
  show n.data = (n.data.dropLast.dropLast) ++ ['_', 'b']
  rw [hdata,
    show rest.reverse ++ ['_', 'b'] = (rest.reverse ++ ['_']) ++ ['b'] by simp]
  simp

theorem strEndsWith_append_b_a (x : String) :
    strEndsWith (x ++ "_b") "_a" = false := by
  unfold strEndsWith
  rw [String.data_append, show ("_b" : String).data = ['_', 'b'] from rfl,
    show ("_a" : String).data.reverse = ['a', '_'] from rfl, List.reverse_append]
  rfl

theorem strEndsWith_append_a_b (x : String) :
    strEndsWith (x ++ "_a") "_b" = false := by
  unfold strEndsWith
  rw [String.data_append, show ("_a" : String).data = ['_', 'a'] from rfl,
    show ("_b" : String).data.reverse = ['b', '_'] from rfl, List.reverse_append]
  rfl

theorem swapName_plain (n : String) (ha : strEndsWith n "_a" = false)
    (hb : strEndsWith n "_b" = false) : swapName n = n := by
  simp [swapName, ha, hb]

theorem swapName_append_a (x : String) : swapName (x ++ "_a") = x ++ "_b" := by
  simp [swapName, strEndsWith_append_a, dropLast2_append_a]

theorem swapName_append_b (x : String) : swapName (x ++ "_b") = x ++ "_a" := by
  simp [swapName, strEndsWith_append_b_a, strEndsWith_append_b, dropLast2_append_b]

theorem not_mem_map_a_target_b (keys other : List String) (s : List ColInfo)
    (x : String) (hcap : ∀ c ∈ s, c.name ≠ x ++ "_b") :
    (x ++ "_b") ∉ colNames (s.map (suffixCol keys other "_a")) := by
  intro hmem
  obtain ⟨c0, hc0, hcn⟩ := (mem_colNames_iff _ _).1 hmem
  obtain ⟨c, hc, hmap⟩ := List.mem_map.1 hc0
  subst hmap
  rw [suffixCol_name] at hcn
  by_cases hc2 : c.name ∉ keys ∧ c.name ∈ other
  · rw [if_pos hc2] at hcn
    exact append_a_ne_append_b c.name x hcn
  · rw [if_neg hc2] at hcn
    exact hcap c hc hcn

theorem not_mem_map_b_target_a (keys other : List String) (s : List ColInfo)
    (x : String) (hcap : ∀ c ∈ s, c.name ≠ x ++ "_a") :
    (x ++ "_a") ∉ colNames (s.map (suffixCol keys other "_b")) := by
  intro hmem
  obtain ⟨c0, hc0, hcn⟩ := (mem_colNames_iff _ _).1 hmem
  obtain ⟨c, hc, hmap⟩ := List.mem_map.1 hc0
  subst hmap
  rw [suffixCol_name] at hcn
  by_cases hc2 : c.name ∉ keys ∧ c.name ∈ other
  · rw [if_pos hc2] at hcn
    exact append_a_ne_append_b x c.name hcn.symm
  · rw [if_neg hc2] at hcn
    exact hcap c hc hcn

theorem swap_row_value (A B : Table) (keys : List String) (ra : List Val)
    (hlen : ra.length = A.schema.length)
    (hkA : ∀ k ∈ keys, k ∈ colNames A.schema)
    (hkB : ∀ k ∈ keys, k ∈ colNames B.schema)
    (hnsA : ∀ c ∈ A.schema, strEndsWith c.name "_a" = false ∧
      strEndsWith c.name "_b" = false)
    (hnsB : ∀ c ∈ B.schema, strEndsWith c.name "_a" = false ∧
      strEndsWith c.name "_b" = false)
    (n : String) :
    getVal (mergedSchema A B keys) (leftOnlyRow keys B.schema ra) n =
      getVal (mergedSchema B A keys)
        (rightOnlyRow B.schema A.schema keys ra) (swapName n) := by
  unfold mergedSchema leftOnlyRow rightOnlyRow
  rw [getVal_append _ _ _ _ _ (by simpa using hlen),
    getVal_append _ _ _ _ _ (by simp)]
  have hnull : ∀ v ∈ (B.schema.filter (fun c => decide (c.name ∉ keys))).map
      (fun _ => Val.null), v = Val.null := by
    intro v hv
    obtain ⟨c, _, hvv⟩ := List.mem_map.1 hv
    exact hvv.symm
  by_cases ha : strEndsWith n "_a" = true
  · obtain ⟨x, hx⟩ : ∃ x, n = x ++ "_a" := ⟨dropLast2 n, endsWith_a_decomp n ha⟩
    subst hx
    rw [swapName_append_a]
    have hcapA : ∀ c ∈ A.schema, c.name ≠ x ++ "_a" := fun c hc =>
      ne_append_a_of_no_suffix c.name x (hnsA c hc).1
    have hcapA_b : ∀ c ∈ A.schema, c.name ≠ x ++ "_b" := fun c hc =>
      ne_append_b_of_no_suffix c.name x (hnsA c hc).2
    have hcapB_b : ∀ c ∈ B.schema, c.name ≠ x ++ "_b" := fun c hc =>
      ne_append_b_of_no_suffix c.name x (hnsB c hc).2
    rw [if_neg (not_mem_map_a_target_b keys (colNames A.schema) B.schema x hcapB_b)]
    rw [getVal_dropKey_suffix_append keys (colNames B.schema) "_b" A.schema ra x
      hcapA_b]
    by_cases hmem1 : (x ++ "_a") ∈
        colNames (A.schema.map (suffixCol keys (colNames B.schema) "_a"))
    · obtain ⟨hxA, hxk, hxB⟩ :=
        (mem_map_suffix_append_iff keys (colNames B.schema) "_a" A.schema x hcapA).1
          hmem1
      rw [if_pos hmem1,
        getVal_map_suffix_renamed keys (colNames B.schema) "_a" A.schema ra x hxk
          hxB hcapA,
        if_pos ⟨hxk, hxB⟩]
    · rw [if_neg hmem1, getVal_null_row _ _ _ hnull]
      by_cases hc0 : x ∉ keys ∧ x ∈ colNames B.schema
      · rw [if_pos hc0, getVal_not_mem _ _ _ (fun hxA => hmem1
          ((mem_map_suffix_append_iff keys (colNames B.schema) "_a" A.schema x
            hcapA).2 ⟨hxA, hc0.1, hc0.2⟩))]
      · rw [if_neg hc0]
  by_cases hb : strEndsWith n "_b" = true
  · obtain ⟨x, hx⟩ : ∃ x, n = x ++ "_b" := ⟨dropLast2 n, endsWith_b_decomp n hb⟩
    subst hx
    rw [swapName_append_b]
    have hcapA_a : ∀ c ∈ A.schema, c.name ≠ x ++ "_a" := fun c hc =>
      ne_append_a_of_no_suffix c.name x (hnsA c hc).1
    have hcapA_b : ∀ c ∈ A.schema, c.name ≠ x ++ "_b" := fun c hc =>
      ne_append_b_of_no_suffix c.name x (hnsA c hc).2
    have hcapB_a : ∀ c ∈ B.schema, c.name ≠ x ++ "_a" := fun c hc =>
      ne_append_a_of_no_suffix c.name x (hnsB c hc).1
    rw [if_neg (not_mem_map_a_target_b keys (colNames B.schema) A.schema x hcapA_b)]
    rw [getVal_null_row _ _ _ hnull]
    by_cases hmem2 : (x ++ "_a") ∈
        colNames (B.schema.map (suffixCol keys (colNames A.schema) "_a"))
    · rw [if_pos hmem2,
        getVal_rightRowFill_append keys (colNames A.schema) "_a" A.schema ra
          B.schema x hcapB_a]
    · rw [if_neg hmem2]
      rw [getVal_not_mem _ _ _ (not_mem_map_b_target_a keys (colNames B.schema)
        (A.schema.filter (fun c => decide (c.name ∉ keys))) x
        (fun c hc => hcapA_a c (List.mem_filter.1 hc).1))]
  have ha2 : strEndsWith n "_a" = false := by
    simpa using ha
  have hb2 : strEndsWith n "_b" = false := by
    simpa using hb
  rw [swapName_plain n ha2 hb2]
  have hshA_a : ∀ c ∈ A.schema, c.name ++ "_a" ≠ n := fun c hc =>
    (ne_append_a_of_no_suffix n c.name ha2).symm
  have hshA_b : ∀ c ∈ A.schema, c.name ++ "_b" ≠ n := fun c hc =>
    (ne_append_b_of_no_suffix n c.name hb2).symm
  have hshB_a : ∀ c ∈ B.schema, c.name ++ "_a" ≠ n := fun c hc =>
    (ne_append_a_of_no_suffix n c.name ha2).symm
  by_cases hK : n ∈ keys
  · rw [if_pos (key_mem_map_suffix keys (colNames B.schema) "_a" A.schema n hK
      (hkA n hK)),
      if_pos (key_mem_map_suffix keys (colNames A.schema) "_a" B.schema n hK
        (hkB n hK)),
      getVal_map_suffix keys (colNames B.schema) "_a" A.schema ra n hK hshA_a,
      getVal_map_rightRow keys (colNames A.schema) A.schema ra B.schema n hK
        (hkB n hK) hshB_a]
  · by_cases hA : n ∈ colNames A.schema
    · by_cases hB : n ∈ colNames B.schema
      · rw [if_neg (not_mem_map_suffix_of_cond keys (colNames B.schema) "_a"
          A.schema n ⟨hK, hB⟩ hshA_a),
          if_neg (not_mem_map_suffix_of_cond keys (colNames A.schema) "_a"
            B.schema n ⟨hK, hA⟩ hshB_a),
          getVal_null_row _ _ _ hnull,
          getVal_dropKey_suffix_cond_null keys (colNames B.schema) "_b" A.schema
            ra n ⟨hK, hB⟩ hshA_b]
      · rw [if_pos (mem_map_suffix_keep keys (colNames B.schema) "_a" A.schema n
          hA (fun h => hB h.2)),
          if_neg (not_mem_map_suffix_plain keys (colNames A.schema) "_a" B.schema
            n hB hshB_a),
          getVal_map_suffix_keep keys (colNames B.schema) "_a" A.schema ra n
            (fun c hc hcn h => hB (hcn ▸ h.2)) hshA_a,
          getVal_dropKey_suffix_plain keys (colNames B.schema) "_b" A.schema ra n
            hK hB hshA_b]
    · by_cases hB : n ∈ colNames B.schema
      · rw [if_neg (not_mem_map_suffix_plain keys (colNames B.schema) "_a"
          A.schema n hA hshA_a),
          if_pos (mem_map_suffix_keep keys (colNames A.schema) "_a" B.schema n hB
            (fun h => hA h.2)),
          getVal_null_row _ _ _ hnull,
          getVal_rightRowFill_plain keys (colNames A.schema) "_a" A.schema ra
            B.schema n hK hshB_a]
      · rw [if_neg (not_mem_map_suffix_plain keys (colNames B.schema) "_a"
          A.schema n hA hshA_a),
          if_neg (not_mem_map_suffix_plain keys (colNames A.schema) "_a" B.schema
            n hB hshB_a),
          getVal_null_row _ _ _ hnull,
          getVal_dropKey_suffix_plain keys (colNames B.schema) "_b" A.schema ra n
            hK hB hshA_b,
          getVal_not_mem _ _ _ hA]

theorem flatMap_left_only_filter {γ : Type} (g : γ → List (List Val))
    (lo : γ → List Val) (bo : γ → List Val → List Val) (l : List γ) :
    ((l.flatMap fun ra =>
      if (g ra).isEmpty then [(lo ra, MergeTag.left_only)]
      else (g ra).map fun rb => (bo ra rb, MergeTag.both)).filter
      (fun p => p.2 == MergeTag.left_only)) =
      (l.filter fun ra => (g ra).isEmpty).map
        (fun ra => (lo ra, MergeTag.left_only)) := by
  induction l with
  | nil => rfl
  | cons ra t ih =>
      rw [List.flatMap_cons, List.filter_append, ih, List.filter_cons]
      by_cases h : (g ra).isEmpty = true
      · rw [if_pos h, if_pos h,
          show ([((lo ra, MergeTag.left_only))].filter
            (fun p => p.2 == MergeTag.left_only)) =
            [(lo ra, MergeTag.left_only)] from rfl, List.map_cons,
          List.singleton_append]
      · rw [if_neg h, if_neg h,
          show ((g ra).map fun rb => (bo ra rb, MergeTag.both)).filter
            (fun p => p.2 == MergeTag.left_only) = [] from
            List.filter_eq_nil_iff.2 (fun p hp => by
              obtain ⟨rb, h3, h4⟩ := List.mem_map.1 hp
              rw [← h4]
              simp), List.nil_append]

theorem flatMap_no_right_only {γ : Type} (g : γ → List (List Val))
    (lo : γ → List Val) (bo : γ → List Val → List Val) (l : List γ) :
    ((l.flatMap fun ra =>
      if (g ra).isEmpty then [(lo ra, MergeTag.left_only)]
      else (g ra).map fun rb => (bo ra rb, MergeTag.both)).filter
      (fun p => p.2 == MergeTag.right_only)) = [] := by
  apply List.filter_eq_nil_iff.2
  intro p hp
  obtain ⟨ra, hra, hmem⟩ := List.mem_flatMap.1 hp
  by_cases h : (g ra).isEmpty = true
  · rw [if_pos h] at hmem
    rw [List.mem_singleton.1 hmem]
    simp
  · rw [if_neg h] at hmem
    obtain ⟨rb, h1, h2⟩ := List.mem_map.1 hmem
    rw [← h2]
    simp

theorem unmatchedA_rows (a b : Table) (keys : List String) :
    ((mergedRows a b keys).filter (fun p => p.2 == MergeTag.left_only)).map
      Prod.fst =
      (a.rows.filter fun ra =>
        ((b.rows.filter fun rb =>
          decide (keyVals b.schema keys rb = keyVals a.schema keys ra)).isEmpty)).map
        (leftOnlyRow keys b.schema) := by
  simp only [mergedRows]
  rw [List.filter_append,
    flatMap_left_only_filter
      (fun ra => b.rows.filter fun rb =>
        decide (keyVals b.schema keys rb = keyVals a.schema keys ra))
      (leftOnlyRow keys b.schema)
      (fun ra rb => bothRow keys b.schema ra rb) a.rows,
    show (((b.rows.filter fun rb =>
        !(a.rows.any fun ra =>
          decide (keyVals a.schema keys ra = keyVals b.schema keys rb))).map
        fun rb => (rightOnlyRow a.schema b.schema keys rb,
          MergeTag.right_only)).filter
      (fun p => p.2 == MergeTag.left_only)) = [] from
      List.filter_eq_nil_iff.2 (fun p hp => by
        obtain ⟨rb, h1, h2⟩ := List.mem_map.1 hp
        rw [← h2]
        simp),
    List.append_nil, List.map_map]
  rfl

theorem unmatchedB_rows (a b : Table) (keys : List String) :
    ((mergedRows a b keys).filter (fun p => p.2 == MergeTag.right_only)).map
      Prod.fst =
      (b.rows.filter fun rb =>
        !(a.rows.any fun ra =>
          decide (keyVals a.schema keys ra = keyVals b.schema keys rb))).map
        (rightOnlyRow a.schema b.schema keys) := by
  simp only [mergedRows]
  rw [List.filter_append,
    flatMap_no_right_only
      (fun ra => b.rows.filter fun rb =>
        decide (keyVals b.schema keys rb = keyVals a.schema keys ra))
      (leftOnlyRow keys b.schema)
      (fun ra rb => bothRow keys b.schema ra rb) a.rows,
    List.nil_append,
    show (((b.rows.filter fun rb =>
        !(a.rows.any fun ra =>
          decide (keyVals a.schema keys ra = keyVals b.schema keys rb))).map
        fun rb => (rightOnlyRow a.schema b.schema keys rb,
          MergeTag.right_only)).filter
      (fun p => p.2 == MergeTag.right_only)) =
      ((b.rows.filter fun rb =>
        !(a.rows.any fun ra =>
          decide (keyVals a.schema keys ra = keyVals b.schema keys rb))).map
        fun rb => (rightOnlyRow a.schema b.schema keys rb,
          MergeTag.right_only)) from
      List.filter_eq_self.2 (fun p hp => by
        obtain ⟨rb, h1, h2⟩ := List.mem_map.1 hp
        rw [← h2]
        simp),
    List.map_map]
  rfl

theorem filter_isEmpty_eq_not_any {α : Type} (p : α → Bool) (l : List α) :
    (l.filter p).isEmpty = !(l.any p) := by
  induction l with
  | nil => rfl
  | cons a t ih =>
      by_cases h : p a = true
      · simp [List.filter_cons, h]
      · have h2 : p a = false := by simpa using h
        simp [List.filter_cons, h2, ih]

theorem colNames_append (s t : List ColInfo) :
    colNames (s ++ t) = colNames s ++ colNames t := by
  simp [colNames]

theorem colNames_filter_nonkey (s : List ColInfo) (keys : List String) (x : String) :
    x ∈ colNames (s.filter (fun c => decide (c.name ∉ keys))) ↔
      (x ∈ colNames s ∧ x ∉ keys) := by
  rw [mem_colNames_iff, mem_colNames_iff]
  constructor
  · rintro ⟨c, hc, rfl⟩
    have h := List.mem_filter.1 hc
    exact ⟨⟨c, h.1, rfl⟩, by simpa using h.2⟩
  · rintro ⟨⟨c, hc, rfl⟩, hk⟩
    exact ⟨c, List.mem_filter.2 ⟨hc, by simpa using hk⟩, rfl⟩

theorem mem_map_suffix_plain_iff (keys other : List String) (suf : String)
    (s : List ColInfo) (n : String) (hshape : ∀ c ∈ s, c.name ++ suf ≠ n) :
    n ∈ colNames (s.map (suffixCol keys other suf)) ↔
      (n ∈ colNames s ∧ ¬(n ∉ keys ∧ n ∈ other)) := by
  constructor
  · intro hmem
    obtain ⟨c0, hc0, hcn⟩ := (mem_colNames_iff _ _).1 hmem
    obtain ⟨c, hc, hmap⟩ := List.mem_map.1 hc0
    subst hmap
    rw [suffixCol_name] at hcn
    by_cases hc2 : c.name ∉ keys ∧ c.name ∈ other
    · rw [if_pos hc2] at hcn
      exact absurd hcn (hshape c hc)
    · rw [if_neg hc2] at hcn
      exact ⟨(mem_colNames_iff _ _).2 ⟨c, hc, hcn⟩, hcn ▸ hc2⟩
  · rintro ⟨hmem, hnc⟩
    exact mem_map_suffix_keep keys other suf s n hmem hnc

theorem swap_schema_mem (A B : Table) (keys : List String)
    (hkA : ∀ k ∈ keys, k ∈ colNames A.schema)
    (hkB : ∀ k ∈ keys, k ∈ colNames B.schema)
    (hnsA : ∀ c ∈ A.schema, strEndsWith c.name "_a" = false ∧
      strEndsWith c.name "_b" = false)
    (hnsB : ∀ c ∈ B.schema, strEndsWith c.name "_a" = false ∧
      strEndsWith c.name "_b" = false)
    (n : String) :
    n ∈ colNames (mergedSchema A B keys) ↔
      swapName n ∈ colNames (mergedSchema B A keys) := by
  unfold mergedSchema
  rw [colNames_append, colNames_append, List.mem_append, List.mem_append]
  by_cases ha : strEndsWith n "_a" = true
  · obtain ⟨x, hx⟩ : ∃ x, n = x ++ "_a" := ⟨dropLast2 n, endsWith_a_decomp n ha⟩
    subst hx
    rw [swapName_append_a]
    have hcapA : ∀ c ∈ A.schema, c.name ≠ x ++ "_a" := fun c hc =>
      ne_append_a_of_no_suffix c.name x (hnsA c hc).1
    have hcapA_b : ∀ c ∈ A.schema, c.name ≠ x ++ "_b" := fun c hc =>
      ne_append_b_of_no_suffix c.name x (hnsA c hc).2
    have hcapB_a : ∀ c ∈ B.schema, c.name ≠ x ++ "_a" := fun c hc =>
      ne_append_a_of_no_suffix c.name x (hnsB c hc).1
    have hcapB_b : ∀ c ∈ B.schema, c.name ≠ x ++ "_b" := fun c hc =>
      ne_append_b_of_no_suffix c.name x (hnsB c hc).2
    constructor
    · rintro (h1 | h2)
      · obtain ⟨hxA, hxk, hxB⟩ :=
          (mem_map_suffix_append_iff keys (colNames B.schema) "_a" A.schema x
            hcapA).1 h1
        exact Or.inr ((mem_map_suffix_append_iff keys (colNames B.schema) "_b" _ x
          (fun c hc => hcapA_b c (List.mem_filter.1 hc).1)).2
          ⟨(colNames_filter_nonkey A.schema keys x).2 ⟨hxA, hxk⟩, hxk, hxB⟩)
      · exact absurd h2 (not_mem_map_b_target_a keys (colNames A.schema) _ x
          (fun c hc => hcapB_a c (List.mem_filter.1 hc).1))
    · rintro (h1 | h2)
      · exact absurd h1 (not_mem_map_a_target_b keys (colNames A.schema) B.schema
          x hcapB_b)
      · obtain ⟨hxAf, hxk, hxB⟩ :=
          (mem_map_suffix_append_iff keys (colNames B.schema) "_b" _ x
            (fun c hc => hcapA_b c (List.mem_filter.1 hc).1)).1 h2
        obtain ⟨hxA, h3⟩ := (colNames_filter_nonkey A.schema keys x).1 hxAf
        exact Or.inl ((mem_map_suffix_append_iff keys (colNames B.schema) "_a"
          A.schema x hcapA).2 ⟨hxA, hxk, hxB⟩)
  by_cases hb : strEndsWith n "_b" = true
  · obtain ⟨x, hx⟩ : ∃ x, n = x ++ "_b" := ⟨dropLast2 n, endsWith_b_decomp n hb⟩
    subst hx
    rw [swapName_append_b]
    have hcapA_a : ∀ c ∈ A.schema, c.name ≠ x ++ "_a" := fun c hc =>
      ne_append_a_of_no_suffix c.name x (hnsA c hc).1
    have hcapA_b : ∀ c ∈ A.schema, c.name ≠ x ++ "_b" := fun c hc =>
      ne_append_b_of_no_suffix c.name x (hnsA c hc).2
    have hcapB_a : ∀ c ∈ B.schema, c.name ≠ x ++ "_a" := fun c hc =>
      ne_append_a_of_no_suffix c.name x (hnsB c hc).1
    have hcapB_b : ∀ c ∈ B.schema, c.name ≠ x ++ "_b" := fun c hc =>
      ne_append_b_of_no_suffix c.name x (hnsB c hc).2
    constructor
    · rintro (h1 | h2)
      · exact absurd h1 (not_mem_map_a_target_b keys (colNames B.schema) A.schema
          x hcapA_b)
      · obtain ⟨hxBf, hxk, hxA⟩ :=
          (mem_map_suffix_append_iff keys (colNames A.schema) "_b" _ x
            (fun c hc => hcapB_b c (List.mem_filter.1 hc).1)).1 h2
        obtain ⟨hxB, h3⟩ := (colNames_filter_nonkey B.schema keys x).1 hxBf
        exact Or.inl ((mem_map_suffix_append_iff keys (colNames A.schema) "_a"
          B.schema x hcapB_a).2 ⟨hxB, hxk, hxA⟩)
    · rintro (h1 | h2)
      · obtain ⟨hxB, hxk, hxA⟩ :=
          (mem_map_suffix_append_iff keys (colNames A.schema) "_a" B.schema x
            hcapB_a).1 h1
        exact Or.inr ((mem_map_suffix_append_iff keys (colNames A.schema) "_b" _ x
          (fun c hc => hcapB_b c (List.mem_filter.1 hc).1)).2
          ⟨(colNames_filter_nonkey B.schema keys x).2 ⟨hxB, hxk⟩, hxk, hxA⟩)
      · exact absurd h2 (not_mem_map_b_target_a keys (colNames B.schema) _ x
          (fun c hc => hcapA_a c (List.mem_filter.1 hc).1))
  have ha2 : strEndsWith n "_a" = false := by
    simpa using ha
  have hb2 : strEndsWith n "_b" = false := by
    simpa using hb
  rw [swapName_plain n ha2 hb2]
  have hshA_a : ∀ c ∈ A.schema, c.name ++ "_a" ≠ n := fun c hc =>
    (ne_append_a_of_no_suffix n c.name ha2).symm
  have hshA_b : ∀ c ∈ A.schema, c.name ++ "_b" ≠ n := fun c hc =>
    (ne_append_b_of_no_suffix n c.name hb2).symm
  have hshB_a : ∀ c ∈ B.schema, c.name ++ "_a" ≠ n := fun c hc =>
    (ne_append_a_of_no_suffix n c.name ha2).symm
  have hshB_b : ∀ c ∈ B.schema, c.name ++ "_b" ≠ n := fun c hc =>
    (ne_append_b_of_no_suffix n c.name hb2).symm
  by_cases hK : n ∈ keys
  · exact iff_of_true
      (Or.inl (key_mem_map_suffix keys (colNames B.schema) "_a" A.schema n hK
        (hkA n hK)))
      (Or.inl (key_mem_map_suffix keys (colNames A.schema) "_a" B.schema n hK
        (hkB n hK)))
  · rw [mem_map_suffix_plain_iff keys (colNames B.schema) "_a" A.schema n hshA_a,
      mem_map_suffix_plain_iff keys (colNames A.schema) "_b" _ n
        (fun c hc => hshB_b c (List.mem_filter.1 hc).1),
      mem_map_suffix_plain_iff keys (colNames A.schema) "_a" B.schema n hshB_a,
      mem_map_suffix_plain_iff keys (colNames B.schema) "_b" _ n
        (fun c hc => hshA_b c (List.mem_filter.1 hc).1),
      colNames_filter_nonkey, colNames_filter_nonkey]
    tauto

/-! ### The key partition of the merge -/

theorem mem_keyList (t : Table) (keys : List String) (k : List Val) :
    k ∈ keyList t keys ↔ ∃ r ∈ t.rows, keyVals t.schema keys r = k := by
  simp [keyList, List.mem_map]

theorem keyList_partition (a b : Table) (keys : List String)
    (hka : ∀ k ∈ keys, k ∈ colNames a.schema)
    (hlenA : ∀ r ∈ a.rows, r.length = a.schema.length)
    (hns : ∀ k ∈ keys, ∀ c ∈ a.schema, c.name ++ "_a" ≠ k)
    (k : List Val) :
    (k ∈ (((mergedRows a b keys).filter
          (fun p => p.2 == MergeTag.left_only)).map Prod.fst).map
        (keyVals (mergedSchema a b keys) keys) ↔
      k ∈ keyList a keys ∧ k ∉ keyList b keys) ∧
    (k ∈ (((mergedRows a b keys).filter
          (fun p => p.2 == MergeTag.right_only)).map Prod.fst).map
        (keyVals (mergedSchema a b keys) keys) ↔
      k ∈ keyList b keys ∧ k ∉ keyList a keys) ∧
    (k ∈ bothKeyList a b keys ↔
      k ∈ keyList a keys ∧ k ∈ keyList b keys) := by
  refine ⟨?_, ?_, ?_⟩
  · constructor
    · intro hmem
      obtain ⟨r, hr, hkeq⟩ := List.mem_map.1 hmem
      obtain ⟨p, hp, hpr⟩ := List.mem_map.1 hr
      obtain ⟨hp1, hp2⟩ := List.mem_filter.1 hp
      obtain ⟨r0, t0⟩ := p
      have ht : t0 = MergeTag.left_only := by simpa using hp2
      subst ht
      simp only at hpr
      subst hpr
      obtain ⟨ra, hra, hrow, hnm⟩ := (mem_mergedRows_left a b keys r0).1 hp1
      subst hrow
      rw [keyVals_leftOnlyRow a b keys ra (hlenA ra hra) hka hns] at hkeq
      constructor
      · exact (mem_keyList a keys k).2 ⟨ra, hra, hkeq⟩
      · intro hb
        obtain ⟨rb, hrb, hkb⟩ := (mem_keyList b keys k).1 hb
        exact hnm ⟨rb, hrb, by rw [hkb, ← hkeq]⟩
    · rintro ⟨hA, hB⟩
      obtain ⟨ra, hra, hkeq⟩ := (mem_keyList a keys k).1 hA
      have hmm : (leftOnlyRow keys b.schema ra, MergeTag.left_only) ∈
          mergedRows a b keys := by
        rw [mem_mergedRows_left]
        refine ⟨ra, hra, rfl, ?_⟩
        rintro ⟨rb, hrb, hkb⟩
        exact hB ((mem_keyList b keys k).2 ⟨rb, hrb, by rw [hkb, hkeq]⟩)
      apply List.mem_map.2
      refine ⟨leftOnlyRow keys b.schema ra, List.mem_map.2
        ⟨(leftOnlyRow keys b.schema ra, MergeTag.left_only),
          List.mem_filter.2 ⟨hmm, by simp⟩, rfl⟩, ?_⟩
      rw [keyVals_leftOnlyRow a b keys ra (hlenA ra hra) hka hns, hkeq]
  · constructor
    · intro hmem
      obtain ⟨r, hr, hkeq⟩ := List.mem_map.1 hmem
      obtain ⟨p, hp, hpr⟩ := List.mem_map.1 hr
      obtain ⟨hp1, hp2⟩ := List.mem_filter.1 hp
      obtain ⟨r0, t0⟩ := p
      have ht : t0 = MergeTag.right_only := by simpa using hp2
      subst ht
      simp only at hpr
      subst hpr
      obtain ⟨rb, hrb, hrow, hnm⟩ := (mem_mergedRows_right a b keys r0).1 hp1
      subst hrow
      rw [keyVals_rightOnlyRow a b keys rb hka hns] at hkeq
      constructor
      · exact (mem_keyList b keys k).2 ⟨rb, hrb, hkeq⟩
      · intro ha
        obtain ⟨ra, hra, hkb⟩ := (mem_keyList a keys k).1 ha
        exact hnm ⟨ra, hra, by rw [hkb, ← hkeq]⟩
    · rintro ⟨hB, hA⟩
      obtain ⟨rb, hrb, hkeq⟩ := (mem_keyList b keys k).1 hB
      have hmm : (rightOnlyRow a.schema b.schema keys rb, MergeTag.right_only) ∈
          mergedRows a b keys := by
        rw [mem_mergedRows_right]
        refine ⟨rb, hrb, rfl, ?_⟩
        rintro ⟨ra, hra, hkb⟩
        exact hA ((mem_keyList a keys k).2 ⟨ra, hra, by rw [hkb, hkeq]⟩)
      apply List.mem_map.2
      refine ⟨rightOnlyRow a.schema b.schema keys rb, List.mem_map.2
        ⟨(rightOnlyRow a.schema b.schema keys rb, MergeTag.right_only),
          List.mem_filter.2 ⟨hmm, by simp⟩, rfl⟩, ?_⟩
      rw [keyVals_rightOnlyRow a b keys rb hka hns, hkeq]
  · constructor
    · intro hmem
      obtain ⟨r, hr, hkeq⟩ := List.mem_map.1 hmem
      obtain ⟨p, hp, hpr⟩ := List.mem_map.1 hr
      obtain ⟨hp1, hp2⟩ := List.mem_filter.1 hp
      obtain ⟨r0, t0⟩ := p
      have ht : t0 = MergeTag.both := by simpa using hp2
      subst ht
      simp only at hpr
      subst hpr
      obtain ⟨ra, hra, rb, hrb, hkmatch, hrow⟩ :=
        (mem_mergedRows_both a b keys r0).1 hp1
      subst hrow
      rw [keyVals_bothRow a b keys ra rb (hlenA ra hra) hka hns] at hkeq
      constructor
      · exact (mem_keyList a keys k).2 ⟨ra, hra, hkeq⟩
      · exact (mem_keyList b keys k).2 ⟨rb, hrb, by rw [hkmatch, hkeq]⟩
    · rintro ⟨hA, hB⟩
      obtain ⟨ra, hra, hkeqa⟩ := (mem_keyList a keys k).1 hA
      obtain ⟨rb, hrb, hkeqb⟩ := (mem_keyList b keys k).1 hB
      have hmm : (bothRow keys b.schema ra rb, MergeTag.both) ∈
          mergedRows a b keys := by
        rw [mem_mergedRows_both]
        exact ⟨ra, hra, rb, hrb, by rw [hkeqb, hkeqa], rfl⟩
      apply List.mem_map.2
      refine ⟨bothRow keys b.schema ra rb, List.mem_map.2
        ⟨(bothRow keys b.schema ra rb, MergeTag.both),
          List.mem_filter.2 ⟨hmm, by simp⟩, rfl⟩, ?_⟩
      rw [keyVals_bothRow a b keys ra rb (hlenA ra hra) hka hns, hkeqa]

/-! ### C2: partition completeness -/

/-- C2: each key combination occurring in either (normalized) input falls
in exactly one of `unmatched_a`, `unmatched_b` and the matched (`both`)
group the mismatches are drawn from: the three key sets are
characterized by presence/absence in A and B, are pairwise disjoint, and
their union is the union of the key sets of A and B. -/
theorem partition_completeness (df_a df_b : Table) (keys : List String)
    (abs_tol rel_tol : ℚ)
    (hka : ∀ k ∈ keys, k ∈ colNames df_a.schema)
    (hkns : ∀ k ∈ keys, strEndsWith k "_a" = false)
    (hlenA : ∀ r ∈ df_a.rows, r.length = df_a.schema.length)
    (k : List Val) :
    (k ∈ keyList (Delta.make df_a df_b keys abs_tol rel_tol).unmatched_a keys ↔
      k ∈ keyList (Delta.make df_a df_b keys abs_tol rel_tol).df_a keys ∧
      k ∉ keyList (Delta.make df_a df_b keys abs_tol rel_tol).df_b keys) ∧
    (k ∈ keyList (Delta.make df_a df_b keys abs_tol rel_tol).unmatched_b keys ↔
      k ∈ keyList (Delta.make df_a df_b keys abs_tol rel_tol).df_b keys ∧
      k ∉ keyList (Delta.make df_a df_b keys abs_tol rel_tol).df_a keys) ∧
    (k ∈ bothKeyList (trim_whitespace df_a) (trim_whitespace df_b) keys ↔
      k ∈ keyList (Delta.make df_a df_b keys abs_tol rel_tol).df_a keys ∧
      k ∈ keyList (Delta.make df_a df_b keys abs_tol rel_tol).df_b keys) ∧
    (¬(k ∈ keyList (Delta.make df_a df_b keys abs_tol rel_tol).unmatched_a keys ∧
        k ∈ keyList (Delta.make df_a df_b keys abs_tol rel_tol).unmatched_b keys) ∧
      ¬(k ∈ keyList (Delta.make df_a df_b keys abs_tol rel_tol).unmatched_a keys ∧
        k ∈ bothKeyList (trim_whitespace df_a) (trim_whitespace df_b) keys) ∧
      ¬(k ∈ keyList (Delta.make df_a df_b keys abs_tol rel_tol).unmatched_b keys ∧
        k ∈ bothKeyList (trim_whitespace df_a) (trim_whitespace df_b) keys)) ∧
    ((k ∈ keyList (Delta.make df_a df_b keys abs_tol rel_tol).unmatched_a keys ∨
        k ∈ keyList (Delta.make df_a df_b keys abs_tol rel_tol).unmatched_b keys ∨
        k ∈ bothKeyList (trim_whitespace df_a) (trim_whitespace df_b) keys) ↔
      (k ∈ keyList (Delta.make df_a df_b keys abs_tol rel_tol).df_a keys ∨
        k ∈ keyList (Delta.make df_a df_b keys abs_tol rel_tol).df_b keys)) := by
  have hka' : ∀ k ∈ keys, k ∈ colNames (trim_whitespace df_a).schema := hka
  have hlen' : ∀ r ∈ (trim_whitespace df_a).rows,
      r.length = (trim_whitespace df_a).schema.length := by
    intro r hr
    obtain ⟨r0, hr0, hrr⟩ := List.mem_map.1 hr
    rw [← hrr, trimRow_length]
    exact hlenA r0 hr0
  have hns' : ∀ k ∈ keys, ∀ c ∈ (trim_whitespace df_a).schema,
      c.name ++ "_a" ≠ k := fun k hk c _ =>
    (ne_append_a_of_no_suffix k c.name (hkns k hk)).symm
  have H := keyList_partition (trim_whitespace df_a) (trim_whitespace df_b) keys
    hka' hlen' hns' k
  obtain ⟨H1, H2, H3⟩ := H
  refine ⟨H1, H2, H3, ⟨?_, ?_, ?_⟩, ?_⟩
  · rintro ⟨h1, h2⟩
    exact (H1.1 h1).2 (H2.1 h2).1
  · rintro ⟨h1, h2⟩
    exact (H1.1 h1).2 (H3.1 h2).2
  · rintro ⟨h1, h2⟩
    exact (H2.1 h1).2 (H3.1 h2).1
  · constructor
    · rintro (h | h | h)
      · exact Or.inl (H1.1 h).1
      · exact Or.inr (H2.1 h).1
      · exact Or.inl (H3.1 h).1
    · rintro (h | h)
      · by_cases hb : k ∈ keyList (Delta.make df_a df_b keys abs_tol rel_tol).df_b keys
        · exact Or.inr (Or.inr (H3.2 ⟨h, hb⟩))
        · exact Or.inl (H1.2 ⟨h, hb⟩)
      · by_cases ha : k ∈ keyList (Delta.make df_a df_b keys abs_tol rel_tol).df_a keys
        · exact Or.inr (Or.inr (H3.2 ⟨ha, h⟩))
        · exact Or.inr (Or.inl (H2.2 ⟨h, ha⟩))

/-- C2 witness: the spec's scenario 1 — keys 1, 4 and 2 land in
`unmatched_a`, `unmatched_b` and the matched group respectively. -/
theorem partition_completeness_witness :
    ([Val.num 1] ∈ keyList (Delta.make scA scB ["id"] 0 0).unmatched_a ["id"] ↔
      [Val.num 1] ∈ keyList (Delta.make scA scB ["id"] 0 0).df_a ["id"] ∧
      [Val.num 1] ∉ keyList (Delta.make scA scB ["id"] 0 0).df_b ["id"]) ∧
    (([Val.num 1] ∈ keyList (Delta.make scA scB ["id"] 0 0).unmatched_b ["id"] ↔
      [Val.num 1] ∈ keyList (Delta.make scA scB ["id"] 0 0).df_b ["id"] ∧
      [Val.num 1] ∉ keyList (Delta.make scA scB ["id"] 0 0).df_a ["id"]) ∧
    ([Val.num 1] ∈ bothKeyList (trim_whitespace scA) (trim_whitespace scB) ["id"] ↔
      [Val.num 1] ∈ keyList (Delta.make scA scB ["id"] 0 0).df_a ["id"] ∧
      [Val.num 1] ∈ keyList (Delta.make scA scB ["id"] 0 0).df_b ["id"]) ∧
    (¬([Val.num 1] ∈ keyList (Delta.make scA scB ["id"] 0 0).unmatched_a ["id"] ∧
        [Val.num 1] ∈ keyList (Delta.make scA scB ["id"] 0 0).unmatched_b ["id"]) ∧
      ¬([Val.num 1] ∈ keyList (Delta.make scA scB ["id"] 0 0).unmatched_a ["id"] ∧
        [Val.num 1] ∈ bothKeyList (trim_whitespace scA) (trim_whitespace scB) ["id"]) ∧
      ¬([Val.num 1] ∈ keyList (Delta.make scA scB ["id"] 0 0).unmatched_b ["id"] ∧
        [Val.num 1] ∈ bothKeyList (trim_whitespace scA) (trim_whitespace scB) ["id"])) ∧
    (([Val.num 1] ∈ keyList (Delta.make scA scB ["id"] 0 0).unmatched_a ["id"] ∨
        [Val.num 1] ∈ keyList (Delta.make scA scB ["id"] 0 0).unmatched_b ["id"] ∨
        [Val.num 1] ∈ bothKeyList (trim_whitespace scA) (trim_whitespace scB) ["id"]) ↔
      ([Val.num 1] ∈ keyList (Delta.make scA scB ["id"] 0 0).df_a ["id"] ∨
        [Val.num 1] ∈ keyList (Delta.make scA scB ["id"] 0 0).df_b ["id"]))) :=
  ⟨(partition_completeness scA scB ["id"] 0 0 (by decide) (by decide) (by decide)
      [Val.num 1]).1,
   (partition_completeness scA scB ["id"] 0 0 (by decide) (by decide) (by decide)
      [Val.num 1]).2⟩

/-- C5 witness: on scenario 1, `changed "price"` projects the mismatch
frame, and `changed "bogus"` fails with the `KeyError`. -/
theorem changed_projection_witness :
    (Delta.make scA scB ["id"] 0 0).changed "price" =
      some ⟨(["id"] ++ ["price" ++ "_a", "price" ++ "_b"]).map
          (fun n => ⟨n, getFlag (Delta.make scA scB ["id"] 0 0).mismatches.schema n⟩),
        (Delta.make scA scB ["id"] 0 0).mismatches.rows.map
          (fun r => (["id"] ++ ["price" ++ "_a", "price" ++ "_b"]).map
            (getVal (Delta.make scA scB ["id"] 0 0).mismatches.schema r))⟩ ∧
    (Delta.make scA scB ["id"] 0 0).changed "bogus" = none :=
  ⟨(changed_projection scA scB ["id"] 0 0 "price" (by decide) (by decide)
      (by decide)).1 ⟨by decide, by decide, by decide⟩,
   (changed_projection scA scB ["id"] 0 0 "bogus" (by decide) (by decide)
      (by decide)).2 (by decide)⟩

/-- C4: the claim as stated is false. With `A = {id: [1], v: [10]}`,
`B = {id: [2], v: [20]}` and key `id`, `Delta(A, B).unmatched_a` holds the
row `(1, 10, NaN)` over `(id, v_a, v_b)` while `Delta(B, A).unmatched_b`
holds `(1, NaN, 10)`: the surviving values sit in the column carrying the
side's suffix, so the two frames are not equal. -/
theorem unmatched_swap_counterexample :
    (Delta.make swapA swapB ["id"] 0 0).unmatched_a ≠
      (Delta.make swapB swapA ["id"] 0 0).unmatched_b := by
  decide

/-- C4 (amended): swapping the inputs swaps the unmatched partitions up to
the side-suffix renaming `_a ↔ _b`. For inputs whose key columns exist on
both sides, whose column names carry no `_a`/`_b` suffix, and whose A-rows
match the A-schema width: `Delta(A,B).unmatched_a` and
`Delta(B,A).unmatched_b` have the same number of rows, a column name `n`
appears in the one schema iff its suffix-swapped name appears in the
other, and cell `i` of column `n` on the left equals cell `i` of the
suffix-swapped column on the right. -/
theorem unmatched_swap_amended (df_a df_b : Table) (keys : List String)
    (abs_tol rel_tol : ℚ)
    (hkA : ∀ k ∈ keys, k ∈ colNames df_a.schema)
    (hkB : ∀ k ∈ keys, k ∈ colNames df_b.schema)
    (hnsA : ∀ c ∈ df_a.schema, strEndsWith c.name "_a" = false ∧
      strEndsWith c.name "_b" = false)
    (hnsB : ∀ c ∈ df_b.schema, strEndsWith c.name "_a" = false ∧
      strEndsWith c.name "_b" = false)
    (hlenA : ∀ r ∈ df_a.rows, r.length = df_a.schema.length) :
    ((Delta.make df_a df_b keys abs_tol rel_tol).unmatched_a.rows.length =
      (Delta.make df_b df_a keys abs_tol rel_tol).unmatched_b.rows.length) ∧
    (∀ n,
      n ∈ colNames (Delta.make df_a df_b keys abs_tol rel_tol).unmatched_a.schema ↔
      swapName n ∈
        colNames (Delta.make df_b df_a keys abs_tol rel_tol).unmatched_b.schema) ∧
    (∀ i n,
      getVal (Delta.make df_a df_b keys abs_tol rel_tol).unmatched_a.schema
        ((Delta.make df_a df_b keys abs_tol rel_tol).unmatched_a.rows.getD i []) n =
      getVal (Delta.make df_b df_a keys abs_tol rel_tol).unmatched_b.schema
        ((Delta.make df_b df_a keys abs_tol rel_tol).unmatched_b.rows.getD i [])
        (swapName n)) := by
  have hfeq : (trim_whitespace df_a).rows.filter (fun ra =>
      (((trim_whitespace df_b).rows.filter fun rb =>
        decide (keyVals (trim_whitespace df_b).schema keys rb =
          keyVals (trim_whitespace df_a).schema keys ra)).isEmpty)) =
    (trim_whitespace df_a).rows.filter (fun rb =>
      !((trim_whitespace df_b).rows.any fun ra =>
        decide (keyVals (trim_whitespace df_b).schema keys ra =
          keyVals (trim_whitespace df_a).schema keys rb))) := by
    apply List.filter_congr
    intro r hr
    rw [filter_isEmpty_eq_not_any]
  refine ⟨?_, ?_, ?_⟩
  · show (((mergedRows (trim_whitespace df_a) (trim_whitespace df_b) keys).filter
        (fun p => p.2 == MergeTag.left_only)).map Prod.fst).length =
      (((mergedRows (trim_whitespace df_b) (trim_whitespace df_a) keys).filter
        (fun p => p.2 == MergeTag.right_only)).map Prod.fst).length
    rw [unmatchedA_rows, unmatchedB_rows, List.length_map, List.length_map, hfeq]
  · show ∀ n,
      n ∈ colNames (mergedSchema (trim_whitespace df_a) (trim_whitespace df_b)
        keys) ↔
      swapName n ∈ colNames (mergedSchema (trim_whitespace df_b)
        (trim_whitespace df_a) keys)
    exact swap_schema_mem (trim_whitespace df_a) (trim_whitespace df_b) keys hkA
      hkB hnsA hnsB
  · intro i n
    show getVal (mergedSchema (trim_whitespace df_a) (trim_whitespace df_b) keys)
        ((((mergedRows (trim_whitespace df_a) (trim_whitespace df_b) keys).filter
          (fun p => p.2 == MergeTag.left_only)).map Prod.fst).getD i []) n =
      getVal (mergedSchema (trim_whitespace df_b) (trim_whitespace df_a) keys)
        ((((mergedRows (trim_whitespace df_b) (trim_whitespace df_a) keys).filter
          (fun p => p.2 == MergeTag.right_only)).map Prod.fst).getD i [])
        (swapName n)
    rw [unmatchedA_rows, unmatchedB_rows, hfeq,
      List.getD_eq_getElem?_getD, List.getD_eq_getElem?_getD,
      List.getElem?_map, List.getElem?_map]
    cases hFi : ((trim_whitespace df_a).rows.filter (fun rb =>
        !((trim_whitespace df_b).rows.any fun ra =>
          decide (keyVals (trim_whitespace df_b).schema keys ra =
            keyVals (trim_whitespace df_a).schema keys rb))))[i]? with
    | none =>
        simp only [Option.map_none', Option.getD_none]
        rw [getVal_nil_row, getVal_nil_row]
    | some r =>
        simp only [Option.map_some', Option.getD_some]
        have hrA : r ∈ (trim_whitespace df_a).rows :=
          (List.mem_filter.1 (List.getElem?_mem hFi)).1
        obtain ⟨r0, hr0, hre⟩ := List.mem_map.1 hrA
        refine swap_row_value (trim_whitespace df_a) (trim_whitespace df_b) keys
          r ?_ hkA hkB hnsA hnsB n
        rw [← hre, trimRow_length]
        exact hlenA r0 hr0

/-- C4 witness: the amended swap theorem applied to the concrete pair
`{id: [1], v: [10]}` / `{id: [2], v: [20]}` on key `id`, read at row 0 of
column `v_a`. -/
theorem unmatched_swap_amended_witness :
    (∀ k ∈ ["id"], k ∈ colNames swapA.schema) ∧
    (∀ k ∈ ["id"], k ∈ colNames swapB.schema) ∧
    (∀ c ∈ swapA.schema, strEndsWith c.name "_a" = false ∧
      strEndsWith c.name "_b" = false) ∧
    (∀ c ∈ swapB.schema, strEndsWith c.name "_a" = false ∧
      strEndsWith c.name "_b" = false) ∧
    (∀ r ∈ swapA.rows, r.length = swapA.schema.length) ∧
    getVal (Delta.make swapA swapB ["id"] 0 0).unmatched_a.schema
      ((Delta.make swapA swapB ["id"] 0 0).unmatched_a.rows.getD 0 []) "v_a" =
    getVal (Delta.make swapB swapA ["id"] 0 0).unmatched_b.schema
      ((Delta.make swapB swapA ["id"] 0 0).unmatched_b.rows.getD 0 [])
      (swapName "v_a") :=
  ⟨by decide, by decide, by decide, by decide, by decide,
   (unmatched_swap_amended swapA swapB ["id"] 0 0 (by decide) (by decide)
      (by decide) (by decide) (by decide)).2.2 0 "v_a"⟩

end Analysta
